import Mathlib

/-!
# Aeromatic++ propeller thruster (`Systems/Thruster.cpp`)

A shallow embedding of `Aeromatic::Propeller`: the design-point sizing of
`Propeller::set_thruster`, the blade-element sweep of `Propeller::bladeElement`,
the propwash corrections of `Propeller::lift` and `Propeller::roll`, and the
table layout of `Propeller::thruster`.

Conventions.
* A C++ `float` is an exact rational (`ℚ`): rounding, infinities and NaN are
  not represented, and `x / 0 = 0` as everywhere in Mathlib. What is stated
  about `_performance` therefore names no number of entries per pass of the
  `J` loop: that number depends on the binary32 rounding of `J`.
* The `<math.h>` functions and the constants `PI`, `DEG_TO_RAD`, which are
  declared outside `Thruster.cpp`, are a parameter (`Math`).
* The object is an explicit record (`Propeller`) passed through the member
  functions; a loop whose bound is not syntactic carries `fuel` and
  returns `none` when it runs out.
-/

/-! ## Data model -/

/-- One entry of `_performance`: advance ratio, thrust and power coefficient. -/
structure _performance_t where
  J : ℚ
  CT : ℚ
  CP : ℚ
deriving DecidableEq

/-- Modelled from the spec: the mount-point enumeration is declared outside
`Thruster.cpp`; the code distinguishes `LEFT_WING`, `RIGHT_WING` and anything
else. -/
inductive MountPoint where
  | FUSELAGE
  | LEFT_WING
  | RIGHT_WING
deriving DecidableEq

/-- The functions of `<math.h>` and the constants `PI` and `DEG_TO_RAD` used by
`Thruster.cpp`, all declared elsewhere. -/
structure Math where
  powf : ℚ → ℚ → ℚ
  pow : ℚ → ℚ → ℚ
  sqrtf : ℚ → ℚ
  atan2f : ℚ → ℚ → ℚ
  cosf : ℚ → ℚ
  sinf : ℚ → ℚ
  PI : ℚ
  DEG_TO_RAD : ℚ

/-- The members of `Aeromatic` (the aircraft) read by the propeller code:
`_wing_span` is `_wing.span`, `_CLmax` is `_CLmax[0]` and `_CLaw` is
`_CLaw[0]`. -/
structure Aeromatic where
  _wing_span : ℚ
  _CL0 : ℚ
  _CLmax : ℚ
  _CLaw : ℚ
  _no_engines : Nat

/-- The members of `Propulsion` read by the propeller code; `_thruster_loc i` is
the `Y` component of the location of engine `i`. -/
structure Propulsion where
  _aircraft : Aeromatic
  _power : ℚ
  _mount_point : Nat → MountPoint
  _thruster_loc : Nat → ℚ

/-- The data members of `Propeller`. -/
structure Propeller where
  _fixed_pitch : Bool
  _diameter : ℚ
  _max_rpm : ℚ
  _pitch_hub : ℚ
  _pitch_tip : ℚ
  _max_chord : ℚ
  _pitch_levels : Nat
  _engine_rpm : ℚ
  _gear_ratio : ℚ
  _Cp0 : ℚ
  _Ct0 : ℚ
  _static_thrust : ℚ
  _ixx : ℚ
  _blades : Nat
  _dCLT0 : ℚ
  _dCLTmax : ℚ
  _dCLTalpha : ℚ
  _prop_span_left : ℚ
  _prop_span_right : ℚ
  _performance : List _performance_t

/-- Modelled from the spec: the macro `_MAX(a,b)` is declared outside
`Thruster.cpp`; it is the larger of its arguments ("`max(engine_rpm/max_rpm, 1)`,
never below 1"). -/
def _MAX (a b : ℚ) : ℚ := if a > b then a else b

/-- Modelled from the spec: the macro `_MIN(a,b)` is declared outside
`Thruster.cpp`; it is the smaller of its arguments ("clamped to at most
-0.01 rad"). -/
def _MIN (a b : ℚ) : ℚ := if a < b then a else b

def FACT : ℚ := 2.667

def NUM_PROP_PITCHES : Nat := 6

def NUM_ELEMENTS : Nat := 12

/-- The constructor `Propeller::Propeller`: the members it does not initialise
are zero here, and `_performance` starts empty. -/
def Propeller.construct : Propeller where
  _fixed_pitch := true
  _diameter := 8.0
  _max_rpm := 2100.0
  _pitch_hub := 48.0
  _pitch_tip := 8.0
  _max_chord := 0.0
  _pitch_levels := 0
  _engine_rpm := 0
  _gear_ratio := 0
  _Cp0 := 0
  _Ct0 := 0
  _static_thrust := 0
  _ixx := 0
  _blades := 0
  _dCLT0 := 0
  _dCLTmax := 0
  _dCLTalpha := 0
  _prop_span_left := 0
  _prop_span_right := 0
  _performance := []

/-! ## `Propeller::bladeElement` -/

/-- The local variables `bladeElement` computes before its loops; `max_chord`
is `_max_chord` after the lazy initialisation. -/
structure BladeLocals where
  B : ℚ
  dia : ℚ
  max_chord : ℚ
  xt : ℚ
  xs : ℚ
  rho : ℚ
  n : ℚ
  omega : ℚ
  coef1 : ℚ
  coef2 : ℚ
  rstep : ℚ
  n2 : ℚ
  D4 : ℚ
  D5 : ℚ

/-- Lines 137-159 of `bladeElement`. -/
def Propeller.bladeLocals (m : Math) (p : Propeller) : BladeLocals :=
  let RPM := p._engine_rpm
  let hub := p._pitch_hub
  let tip := p._pitch_tip
  let dia := p._diameter
  let B : ℚ := p._blades
  let max_chord := if p._max_chord = 0 then 0.17 * m.powf dia (1.0 / B) else p._max_chord
  let R := dia / 2.0
  let xt := R
  let xs := 0.1 * R
  let rho := 1.225
  let n := RPM / 60.0
  let omega := 2.0 * m.PI * n
  let coef1 := (tip - hub) / (xt - xs)
  let coef2 := hub - coef1 * xs
  let rstep := (xt - xs) / ((NUM_ELEMENTS : ℚ) - 2)
  let n2 := n * n
  let D4 := dia * dia * dia * dia
  let D5 := D4 * dia
  { B := B, dia := dia, max_chord := max_chord, xt := xt, xs := xs, rho := rho, n := n,
    omega := omega, coef1 := coef1, coef2 := coef2, rstep := rstep, n2 := n2, D4 := D4, D5 := D5 }

/-- The per-station values the induction loop reads (lines 175-200). -/
structure StationLocals where
  rad : ℚ
  chord : ℚ
  th : ℚ
  CL0 : ℚ
  CLa : ℚ
  CD0 : ℚ
  CDa : ℚ
  CDi : ℚ

/-- Lines 175-200: the geometry and the linearised airfoil of station `i` at
pitch offset `pitch`, with span efficiency `eff`. -/
def stationLocals (m : Math) (l : BladeLocals) (eff pitch : ℚ) (i : Nat) : StationLocals :=
  let rad := l.xs + (i : ℚ) * l.rstep
  let r := _MAX (1.0 - rad / l.xt) 0.0
  let chord := l.max_chord * (0.5 + 0.53 * (m.pow r 0.25 - m.pow r 5.0))
  let TC := 0.2 * (0.1 + 0.9 * m.powf r 2.5)
  let theta := l.coef1 * rad + l.coef2 + pitch
  let th := theta * m.DEG_TO_RAD
  let AR := l.B * l.rstep / chord
  let PAR := m.PI * AR
  let CL0 := 0.42
  let CLa := PAR / (1.0 + m.sqrtf (1.0 + 0.25 * AR * AR))
  let CD0 := 0.002448 * TC
  let CDa := 2.0 * CLa / (l.B * eff * PAR)
  let CDi := 1.0 / (eff * PAR)
  { rad := rad, chord := chord, th := th, CL0 := CL0, CLa := CLa, CD0 := CD0, CDa := CDa,
    CDi := CDi }

/-- The variables of the induction loop that outlive one iteration. -/
structure InductionState where
  a : ℚ
  b : ℚ
  sum : Int
  DtDr : ℚ
  DqDr : ℚ

/-- One pass through the body of `while (finished == 0)` (lines 205-230), from
`a`, `b`, `sum`: the new loop variables and the new value of `finished`. -/
def inductionBody (m : Math) (l : BladeLocals) (s : StationLocals) (V a b : ℚ) (sum : Int) :
    InductionState × Int :=
  let V0 := V * (1.0 + a)
  let V2 := l.omega * s.rad * (1.0 - b)
  let phi := m.atan2f V0 V2
  let alpha := s.th - phi
  let CL := s.CL0 + s.CLa * alpha
  let CD := s.CD0 + s.CDa * alpha * CL + s.CDi * CL * CL
  let CY := CL * m.cosf phi - CD * m.sinf phi
  let CX := CD * m.cosf phi + CL * m.sinf phi
  let Vlocal := m.sqrtf (V0 * V0 + V2 * V2)
  let Vlocal2 := Vlocal * Vlocal
  let DtDr := 0.5 * l.rho * Vlocal2 * l.B * s.chord * CY
  let DqDr := 0.5 * l.rho * Vlocal2 * l.B * s.chord * s.rad * CX
  let tem1 := DtDr / (4.0 * m.PI * s.rad * l.rho * V * V * (1.0 + a))
  let tem2 := DqDr / (4.0 * m.PI * s.rad * s.rad * s.rad * l.rho * V * (1.0 + a) * l.omega)
  let anew := 0.5 * (a + tem1)
  let bnew := 0.5 * (b + tem2)
  let finished : Int := if |anew - a| < 1.0e-5 ∧ |bnew - b| < 1.0e-5 then 1 else 0
  let sum := sum + 1
  let finished : Int := if sum > 500 then 1 else finished
  ({ a := anew, b := bnew, sum := sum, DtDr := DtDr, DqDr := DqDr }, finished)

/-- The loop `while (finished == 0)` of lines 203-231, entered with
`finished = 0`. -/
def inductionLoop (m : Math) (l : BladeLocals) (s : StationLocals) (V : ℚ) :
    Nat → ℚ → ℚ → Int → Option InductionState
  | 0, _, _, _ => none
  | fuel + 1, a, b, sum =>
    let r := inductionBody m l s V a b sum
    if r.2 = 0 then inductionLoop m l s V fuel r.1.a r.1.b r.1.sum else some r.1

/-- The iterations the guard `++sum > 500` allows from `sum = 1`. -/
@[irreducible] def INDUCTION_FUEL : Nat := 500

/-- The pair `(anew, bnew)` that one pass of the induction loop computes from
`(a, b)` (lines 205-222); it does not depend on `sum`. -/
def inductionUpdate (m : Math) (l : BladeLocals) (s : StationLocals) (V : ℚ) (ab : ℚ × ℚ) :
    ℚ × ℚ :=
  ((inductionBody m l s V ab.1 ab.2 0).1.a, (inductionBody m l s V ab.1 ab.2 0).1.b)

/-- The test of line 223 in the pass that starts from `(a, b)`:
`fabsf(anew-a) < 1.0e-5f && fabsf(bnew-b) < 1.0e-5f`. -/
def inductionConverged (m : Math) (l : BladeLocals) (s : StationLocals) (V : ℚ) (ab : ℚ × ℚ) :
    Bool :=
  decide (|(inductionUpdate m l s V ab).1 - ab.1| < 1.0e-5 ∧
    |(inductionUpdate m l s V ab).2 - ab.2| < 1.0e-5)

/-- The loop `for (unsigned i=0; i<NUM_ELEMENTS-1; ++i)` of lines 173-234 over
the stations in `is`, accumulating `(thrust, torque)`. -/
def stationLoop (m : Math) (l : BladeLocals) (eff pitch V : ℚ) :
    List Nat → ℚ × ℚ → Option (ℚ × ℚ)
  | [], acc => some acc
  | i :: is, acc =>
    let s := stationLocals m l eff pitch i
    let a := 0.1
    let b := 0.01
    let sum := 1
    match inductionLoop m l s V INDUCTION_FUEL a b sum with
    | none => none
    | some r => stationLoop m l eff pitch V is (acc.1 + r.DtDr * l.rstep, acc.2 + r.DqDr * l.rstep)

/-- The body of the `J` loop (lines 170-240): the entry pushed for advance
ratio `J` at pitch offset `pitch`. -/
def performanceEntry (m : Math) (l : BladeLocals) (eff pitch J : ℚ) : Option _performance_t :=
  let V := J * l.n * l.dia
  let thrust := 0.0
  let torque := 0.0
  match stationLoop m l eff pitch V (List.range (NUM_ELEMENTS - 1)) (thrust, torque) with
  | none => none
  | some (thrust, torque) =>
    let CT := thrust / (l.rho * l.n2 * l.D4)
    let CQ := torque / (l.rho * l.n2 * l.D5)
    let CP := 2.0 * m.PI * CQ
    some { J := J, CT := CT, CP := CP }

/-- The loop `for (float J=0.1; J<2.4f; J += step)` of lines 166-242, entered at
`J` with step `step`, pushing onto `perf`. `J` and `step` are exact rationals;
the source accumulates them in binary32, where the sums differ in the last bits
and the pass that decides `J < 2.4f` can fall on the other side, so the number
of entries of one pass is a property of this exact loop only. -/
def forJ (body : ℚ → Option _performance_t) :
    Nat → ℚ → ℚ → List _performance_t → Option (List _performance_t)
  | fuel, J, step, perf =>
    if J < 2.4 then
      match fuel with
      | 0 => none
      | fuel + 1 =>
        let step := if J > 1.36 then 0.1 else step
        match body J with
        | none => none
        | some entry => forJ body fuel (J + step) step (perf ++ [entry])
    else some perf

/-- Fuel for the `J` loop: its step is at least `0.05`, so it makes at most
46 passes from `0.1` to `2.4`. -/
@[irreducible] def J_FUEL : Nat := 46

/-- The loop `do { ... } while (_pitch_levels < NUM_PROP_PITCHES)` of lines
162-248, entered with pitch offset `pitch`. -/
def doPitch (m : Math) (l : BladeLocals) : Nat → ℚ → Propeller → Option Propeller
  | 0, _, _ => none
  | fuel + 1, pitch, p =>
    let eff := 0.89
    let step := 0.05
    match forJ (performanceEntry m l eff pitch) J_FUEL 0.1 step p._performance with
    | none => none
    | some perf =>
      let p := { p with _performance := perf }
      let p := { p with _pitch_levels := p._pitch_levels + 1 }
      if p._fixed_pitch then some p
      else
        let pitch := pitch + 15.0
        if p._pitch_levels < NUM_PROP_PITCHES then doPitch m l fuel pitch p else some p

/-- The function `Propeller::bladeElement` (lines 135-249). -/
def Propeller.bladeElement (m : Math) (p : Propeller) : Option Propeller :=
  let l := p.bladeLocals m
  let p := { p with _max_chord := l.max_chord }
  let pitch := if p._fixed_pitch then 0.0 else -15.0
  doPitch m l NUM_PROP_PITCHES pitch p

/-- The `J` loop of one pass of the `do` loop, entered as the code enters it
(`J = 0.1`, `step = 0.05`, `eff = 0.89`) at pitch offset `pitch`, on an empty
vector: the group of entries that pass pushes. -/
def sweep (m : Math) (l : BladeLocals) (pitch : ℚ) : Option (List _performance_t) :=
  forJ (performanceEntry m l 0.89 pitch) J_FUEL 0.1 0.05 []

/-- The advance ratios at which the `J` loop runs its body, in order
(`forJ_grid`). -/
def jGrid : List ℚ :=
  [0.1, 0.15, 0.2, 0.25, 0.3, 0.35, 0.4, 0.45, 0.5, 0.55, 0.6, 0.65, 0.7, 0.75, 0.8, 0.85, 0.9,
   0.95, 1.0, 1.05, 1.1, 1.15, 1.2, 1.25, 1.3, 1.35, 1.4, 1.5, 1.6, 1.7, 1.8, 1.9, 2.0, 2.1, 2.2,
   2.3]

/-- The number of passes the `do` loop of `bladeElement` makes from the state
`p` (`doPitch_spec`). -/
def pitchPasses (p : Propeller) : Nat :=
  if p._fixed_pitch then 1 else max 1 (NUM_PROP_PITCHES - p._pitch_levels)

/-! ## `Propeller::set_thruster` -/

/-- Lines 279-290 of `set_thruster`: the number of blades estimated from `_Cp0`. -/
def estimateBlades (_Cp0 : ℚ) : Nat :=
  if _Cp0 < 0.035 then 2
  else if _Cp0 > 0.160 then 8
  else if _Cp0 > 0.105 then 6
  else if _Cp0 > 0.065 then 4
  else 3

/-- The accumulators of the engine loop of lines 311-326. -/
structure SpanSums where
  left : Int
  right : Int
  _prop_span_left : ℚ
  _prop_span_right : ℚ

/-- The body of the loop of lines 314-326 for engine `i`. -/
def mountBody (_propulsion : Propulsion) (acc : SpanSums) (i : Nat) : SpanSums :=
  if _propulsion._mount_point i = MountPoint.LEFT_WING then
    { acc with left := acc.left + 1,
               _prop_span_left := acc._prop_span_left + _propulsion._thruster_loc i }
  else if _propulsion._mount_point i = MountPoint.RIGHT_WING then
    { acc with right := acc.right + 1,
               _prop_span_right := acc._prop_span_right + _propulsion._thruster_loc i }
  else acc

/-- Lines 311-331 of `set_thruster`: the spanwise thruster positions per side. -/
def propSpan (_propulsion : Propulsion) : ℚ × ℚ :=
  let aircraft := _propulsion._aircraft
  let acc : SpanSums := { left := 0, right := 0, _prop_span_left := 0, _prop_span_right := 0 }
  let acc := (List.range aircraft._no_engines).foldl (mountBody _propulsion) acc
  if aircraft._no_engines > 1 then
    (acc._prop_span_left / (acc.left : ℚ), acc._prop_span_right / (acc.right : ℚ))
  else (acc._prop_span_left, acc._prop_span_right)

/-- Lines 253-331 of `set_thruster`: everything before the call of
`bladeElement`. -/
def Propeller.designPoint (m : Math) (_propulsion : Propulsion) (mrpm : ℚ) (p : Propeller) :
    Propeller :=
  let _engine_rpm := mrpm
  let _max_rpm := 18763.0 / p._diameter
  let _gear_ratio := _MAX (_engine_rpm / _max_rpm) 1.0
  let max_rps := _max_rpm / 60.0
  let rps2 := max_rps * max_rps
  let rps3 := rps2 * max_rps
  let d4 := p._diameter * p._diameter * p._diameter * p._diameter
  let d5 := d4 * p._diameter
  let rho := 0.002378
  let _Cp0 := _propulsion._power * 550.0 / rho / rps3 / d5
  let rpss := m.powf (_propulsion._power * 550.0 / 1.025 / _Cp0 / rho / d5) 0.3333
  let _Ct0 := if p._fixed_pitch = false then _Cp0 * 2.33 else _Cp0 * 1.4
  let _static_thrust :=
    if p._fixed_pitch = false then _Ct0 * rho * rps2 * d4
    else 1.09 * _Ct0 * rho * rpss * rpss * d4
  let _blades := estimateBlades _Cp0
  let weight := m.powf p._diameter 2.8 / 4.8
  let mass_prop := weight / 32.174
  let mass_hub := 0.1 * mass_prop
  let mass_blade := (mass_prop - mass_hub) / (_blades : ℚ)
  let L := p._diameter / 2
  let R := L * 0.1
  let ixx_blades := (_blades : ℚ) * (0.33333 * mass_blade * L * L)
  let ixx_hub := 0.5 * mass_hub * R * R
  let _ixx := ixx_blades + ixx_hub
  let aircraft := _propulsion._aircraft
  let Swp := 0.96 * p._diameter / aircraft._wing_span
  let span := propSpan _propulsion
  { p with
    _engine_rpm := _engine_rpm, _max_rpm := _max_rpm, _gear_ratio := _gear_ratio, _Cp0 := _Cp0,
    _Ct0 := _Ct0, _static_thrust := _static_thrust, _blades := _blades, _ixx := _ixx,
    _dCLT0 := aircraft._CL0 * Swp, _dCLTmax := aircraft._CLmax * Swp,
    _dCLTalpha := aircraft._CLaw * Swp, _prop_span_left := span.1, _prop_span_right := span.2 }

/-- The local `mass_prop` of lines 293-294 of `set_thruster`, a function of the
diameter alone. -/
def massProp (m : Math) (_diameter : ℚ) : ℚ :=
  m.powf _diameter 2.8 / 4.8 / 32.174

/-- The function `Propeller::set_thruster` (lines 251-334). -/
def Propeller.set_thruster (m : Math) (_propulsion : Propulsion) (mrpm : ℚ) (p : Propeller) :
    Option Propeller :=
  (p.designPoint m _propulsion mrpm).bladeElement m

/-! ## `Propeller::lift`, `Propeller::roll`, `Propeller::thruster` -/

/-- One row of a propwash table: the angle of attack and the values of the
columns for flap positions `0.0` and `60.0`. -/
structure PropwashRow where
  alpha : ℚ
  flap0 : ℚ
  flap60 : ℚ
deriving DecidableEq

/-- The four rows `Propeller::lift` writes into `<tableData>` (lines 341-366),
as numbers before formatting. -/
def Propeller.lift (p : Propeller) : List PropwashRow :=
  let dCL0 := p._dCLT0
  let dCLmax := p._dCLTmax
  let dCLalpha := p._dCLTalpha
  let alpha := (dCLmax - dCL0) / dCLalpha
  [ { alpha := _MIN (-dCL0 / alpha) (-0.01), flap0 := 0.000, flap60 := 0.000 },
    { alpha := 0.00, flap0 := dCL0, flap60 := FACT * dCL0 },
    { alpha := alpha, flap0 := dCLmax, flap60 := FACT * dCLmax },
    { alpha := 2.0 * alpha, flap0 := 0.000, flap60 := 0.000 } ]

/-- The value `dClT` that `Propeller::roll` writes (lines 431-437). -/
def Propeller.roll (aircraft : Aeromatic) (p : Propeller) : ℚ :=
  let y := p._prop_span_left - p._diameter / 2.0
  let k := y / (aircraft._wing_span / 2.0)
  (p._dCLTalpha / 2.0) * ((1.0 - k * k) / 3.0)

/-- The column headers `-15+int(p*15)` of the variable-pitch tables (lines
522-524 and 561-563). -/
def pitchHeader : List Int :=
  (List.range NUM_PROP_PITCHES).map fun p => -15 + ((p * 15 : Nat) : Int)

/-- The local `size` of the variable-pitch branches (lines 520 and 559). -/
def Propeller.size (p : Propeller) : Nat :=
  p._performance.length / p._pitch_levels

/-- One row of a variable-pitch table: the entries the code reads, `none`
where the index is outside `_performance`. -/
structure PitchRow where
  J : Option ℚ
  cells : List (Option ℚ)

/-- The rows of a variable-pitch table of `Propeller::thruster` (lines 527-535
with `val = CT`, lines 566-574 with `val = CP`). -/
def Propeller.pitchTable (val : _performance_t → ℚ) (p : Propeller) : List PitchRow :=
  let size := p.size
  (List.range size).map fun i =>
    { J := (p._performance[i]?).map (fun e => e.J),
      cells := (List.range NUM_PROP_PITCHES).map fun q =>
        (p._performance[q * size + i]?).map val }

/-- The rows of a fixed-pitch table of `Propeller::thruster` (lines 505-510 and
545-550): advance ratio and value of every entry. -/
def Propeller.fixedTable (val : _performance_t → ℚ) (p : Propeller) : List (ℚ × ℚ) :=
  p._performance.map fun e => (e.J, val e)

/-! ## Sample inputs -/

/-- A computable instance of `Math` made of first-order rational
approximations; it only serves to instantiate the theorems, which hold for
every instance, at concrete inputs. -/
def coarseMath : Math where
  powf := fun x y => 1 + y * (x - 1)
  pow := fun x y => 1 + y * (x - 1)
  sqrtf := fun x => (1 + x) / 2
  atan2f := fun y x => y / (|x| + |y|)
  cosf := fun x => 1 - x * x / 2
  sinf := fun x => x
  PI := 3.14159265
  DEG_TO_RAD := 0.01745329252

/-- A single-engine aircraft with the engine on the fuselage. -/
def sampleAircraft : Aeromatic where
  _wing_span := 36.0
  _CL0 := 0.25
  _CLmax := 1.4
  _CLaw := 5.0
  _no_engines := 1

/-- A 180 hp propulsion system for `sampleAircraft`. -/
def samplePropulsion : Propulsion where
  _aircraft := sampleAircraft
  _power := 180.0
  _mount_point := fun _ => MountPoint.FUSELAGE
  _thruster_loc := fun _ => 0

/-- The 180 hp propulsion system with its single engine on the left wing, at
spanwise offset 4, half the constructor's propeller diameter. -/
def leftWingPropulsion : Propulsion where
  _aircraft := sampleAircraft
  _power := 180.0
  _mount_point := fun _ => MountPoint.LEFT_WING
  _thruster_loc := fun _ => 4.0

/-- A freshly constructed propeller switched to variable pitch. -/
def variablePropeller : Propeller :=
  { Propeller.construct with _fixed_pitch := false }

/-! ## The loops of `bladeElement` -/

theorem inductionBody_sum (m : Math) (l : BladeLocals) (s : StationLocals) (V a b : ℚ)
    (sum : Int) : (inductionBody m l s V a b sum).1.sum = sum + 1 := rfl

theorem inductionBody_finished (m : Math) (l : BladeLocals) (s : StationLocals) (V a b : ℚ)
    (sum : Int) (h : (inductionBody m l s V a b sum).2 = 0) : sum + 1 ≤ 500 := by
  by_contra hc
  have hgt : sum + 1 > 500 := by omega
  simp [inductionBody, hgt] at h

/-- The induction loop returns whenever the fuel covers the passes left before
`++sum > 500`. -/
theorem inductionLoop_some (m : Math) (l : BladeLocals) (s : StationLocals) (V : ℚ) :
    ∀ (fuel : Nat) (a b : ℚ) (sum : Int), 1 ≤ fuel → 501 ≤ sum + fuel →
      ∃ r, inductionLoop m l s V fuel a b sum = some r := by
  intro fuel
  induction fuel with
  | zero => intro a b sum h; omega
  | succ fuel ih =>
    intro a b sum _ hs
    rw [inductionLoop]
    by_cases hf : (inductionBody m l s V a b sum).2 = 0
    · have hle := inductionBody_finished m l s V a b sum hf
      simp only [hf, if_true]
      rw [inductionBody_sum]
      apply ih
      · omega
      · push_cast at hs; omega
    · simp only [hf, if_false]
      exact ⟨_, rfl⟩

theorem stationLoop_some (m : Math) (l : BladeLocals) (eff pitch V : ℚ) :
    ∀ (is : List Nat) (acc : ℚ × ℚ), ∃ r, stationLoop m l eff pitch V is acc = some r := by
  intro is
  induction is with
  | nil => intro acc; exact ⟨acc, rfl⟩
  | cons i is ih =>
    intro acc
    obtain ⟨r, hr⟩ := inductionLoop_some m l (stationLocals m l eff pitch i) V INDUCTION_FUEL
      0.1 0.01 1 (by unfold INDUCTION_FUEL; decide) (by unfold INDUCTION_FUEL; decide)
    obtain ⟨r', hr'⟩ := ih (acc.1 + r.DtDr * l.rstep, acc.2 + r.DqDr * l.rstep)
    refine ⟨r', ?_⟩
    rw [stationLoop.eq_2]
    simp only [hr]
    exact hr'

/-- The body of the `J` loop always produces an entry, and the entry carries
the advance ratio it was computed for. -/
theorem performanceEntry_some (m : Math) (l : BladeLocals) (eff pitch J : ℚ) :
    ∃ e, performanceEntry m l eff pitch J = some e ∧ e.J = J := by
  obtain ⟨r, hr⟩ := stationLoop_some m l eff pitch (J * l.n * l.dia)
    (List.range (NUM_ELEMENTS - 1)) (0.0, 0.0)
  unfold performanceEntry
  simp only [hr]
  exact ⟨_, rfl, rfl⟩

theorem forJ_step (f : ℚ → _performance_t) (fuel : Nat) (J step : ℚ)
    (perf : List _performance_t) (h : J < 2.4) :
    forJ (fun J => some (f J)) (fuel + 1) J step perf =
      forJ (fun J => some (f J)) fuel (J + (if J > 1.36 then 0.1 else step))
        (if J > 1.36 then 0.1 else step) (perf ++ [f J]) := by
  rw [forJ]; simp [h]

theorem forJ_done (body : ℚ → Option _performance_t) (fuel : Nat) (J step : ℚ)
    (perf : List _performance_t) (h : ¬ J < 2.4) : forJ body fuel J step perf = some perf := by
  unfold forJ; simp [h]

set_option maxRecDepth 4000 in
/-- With a body that always returns, the `J` loop pushes one entry for each
advance ratio of `jGrid`, in order, and returns within `J_FUEL`. -/
theorem forJ_grid (f : ℚ → _performance_t) (perf : List _performance_t) :
    forJ (fun J => some (f J)) J_FUEL 0.1 0.05 perf = some (perf ++ jGrid.map f) := by
  unfold J_FUEL
  iterate 36 (rw [forJ_step _ _ _ _ _ (by norm_num)]; norm_num)
  rw [forJ_done _ _ _ _ _ (by norm_num)]
  simp [jGrid]
  norm_num

/-- The `J` loop at one pitch offset: started on `perf`, it appends the group
`sweep` returns, whose entries are those of `performanceEntry` along `jGrid`. -/
theorem sweep_spec (m : Math) (l : BladeLocals) (pitch : ℚ) :
    ∃ g, sweep m l pitch = some g ∧
      List.Forall₂ (fun J e => performanceEntry m l 0.89 pitch J = some e) jGrid g ∧
      g.map (fun e => e.J) = jGrid ∧
      ∀ perf, forJ (performanceEntry m l 0.89 pitch) J_FUEL 0.1 0.05 perf = some (perf ++ g) := by
  choose f hf hJ using fun J => performanceEntry_some m l 0.89 pitch J
  have hbody : performanceEntry m l 0.89 pitch = fun J => some (f J) := funext hf
  have hperf : ∀ perf, forJ (performanceEntry m l 0.89 pitch) J_FUEL 0.1 0.05 perf =
      some (perf ++ jGrid.map f) := by
    intro perf
    rw [hbody]
    exact forJ_grid f perf
  refine ⟨jGrid.map f, ?_, ?_, ?_, hperf⟩
  · simpa [sweep] using hperf []
  · rw [List.forall₂_map_right_iff]
    exact List.forall₂_same.mpr (fun J _ => hf J)
  · rw [List.map_map]
    have : ((fun e => e.J) ∘ f) = id := funext hJ
    rw [this, List.map_id]

theorem jGrid_length : jGrid.length = 36 := rfl

theorem sweep_length (m : Math) (l : BladeLocals) (pitch : ℚ) (g : List _performance_t)
    (h : sweep m l pitch = some g) : g.length = 36 := by
  obtain ⟨g', hg', _, hJ, _⟩ := sweep_spec m l pitch
  rw [hg'] at h
  cases h
  rw [← jGrid_length, ← hJ, List.length_map]

theorem pitchPasses_pos (p : Propeller) : 1 ≤ pitchPasses p := by
  unfold pitchPasses; split <;> simp

theorem pitchPasses_le (p : Propeller) : pitchPasses p ≤ NUM_PROP_PITCHES := by
  unfold pitchPasses NUM_PROP_PITCHES; split <;> omega

/-- The `do` loop: with fuel for its passes it returns, having appended one
group per pass, at pitch offsets 15 apart, and counted the passes. -/
theorem doPitch_spec (m : Math) (l : BladeLocals) :
    ∀ (fuel : Nat) (pitch : ℚ) (p : Propeller), pitchPasses p ≤ fuel →
      ∃ groups : List (List _performance_t),
        List.Forall₂ (fun pitch g => sweep m l pitch = some g)
          (List.iterate (fun x => x + 15) pitch (pitchPasses p)) groups ∧
        doPitch m l fuel pitch p =
          some { p with _performance := p._performance ++ groups.flatten,
                        _pitch_levels := p._pitch_levels + pitchPasses p } := by
  intro fuel
  induction fuel with
  | zero =>
    intro pitch p h
    have := pitchPasses_pos p
    omega
  | succ fuel ih =>
    intro pitch p h
    obtain ⟨g, hg, _, _, hperf⟩ := sweep_spec m l pitch
    rw [doPitch]
    simp only [hperf]
    by_cases hfix : p._fixed_pitch = true
    · have hn : pitchPasses p = 1 := by simp [pitchPasses, hfix]
      refine ⟨[g], ?_, ?_⟩
      · rw [hn]; simp [List.iterate, hg]
      · simp [hfix, hn]
    · by_cases hlt : p._pitch_levels + 1 < NUM_PROP_PITCHES
      · have hn : pitchPasses p = NUM_PROP_PITCHES - p._pitch_levels := by
          simp [pitchPasses, hfix]; omega
        have hn' : pitchPasses
            { p with _performance := p._performance ++ g, _pitch_levels := p._pitch_levels + 1 } =
              NUM_PROP_PITCHES - (p._pitch_levels + 1) := by
          simp [pitchPasses, hfix]; omega
        obtain ⟨gs, hgs, hdo⟩ := ih (pitch + 15.0)
          { p with _performance := p._performance ++ g, _pitch_levels := p._pitch_levels + 1 }
          (by rw [hn']; rw [hn] at h; omega)
        refine ⟨g :: gs, ?_, ?_⟩
        · have : pitchPasses p = (NUM_PROP_PITCHES - (p._pitch_levels + 1)) + 1 := by omega
          rw [this, List.iterate]
          refine List.Forall₂.cons hg ?_
          rw [hn'] at hgs
          have h15 : pitch + 15.0 = pitch + 15 := by norm_num
          rw [h15] at hgs
          exact hgs
        · rw [if_neg hfix, if_pos hlt, hdo, hn', hn]
          simp only [List.flatten_cons, List.append_assoc, Option.some.injEq, Propeller.mk.injEq,
            true_and, and_true]
          omega
      · have hn : pitchPasses p = 1 := by
          simp [pitchPasses, hfix]; omega
        refine ⟨[g], ?_, ?_⟩
        · rw [hn]; simp [List.iterate, hg]
        · simp [hfix, hlt, hn]

/-- The function `bladeElement` always returns: it fixes `_max_chord`, appends
one group per pass of its `do` loop and adds the passes to `_pitch_levels`. -/
theorem bladeElement_spec (m : Math) (p : Propeller) :
    ∃ groups : List (List _performance_t),
      List.Forall₂ (fun pitch g => sweep m (p.bladeLocals m) pitch = some g)
        (List.iterate (fun x => x + 15) (if p._fixed_pitch then 0 else -15) (pitchPasses p))
        groups ∧
      p.bladeElement m =
        some { p with _max_chord := (p.bladeLocals m).max_chord,
                      _performance := p._performance ++ groups.flatten,
                      _pitch_levels := p._pitch_levels + pitchPasses p } := by
  have hpass : pitchPasses { p with _max_chord := (p.bladeLocals m).max_chord } = pitchPasses p :=
    rfl
  obtain ⟨groups, hgs, hdo⟩ := doPitch_spec m (p.bladeLocals m) NUM_PROP_PITCHES
    (if p._fixed_pitch then 0.0 else -15.0)
    { p with _max_chord := (p.bladeLocals m).max_chord } (by rw [hpass]; exact pitchPasses_le p)
  refine ⟨groups, ?_, ?_⟩
  · rw [hpass] at hgs
    have h0 : (if p._fixed_pitch = true then (0.0 : ℚ) else -15.0) =
        (if p._fixed_pitch = true then 0 else -15) := by norm_num
    rw [h0] at hgs
    exact hgs
  · unfold Propeller.bladeElement
    simp only []
    rw [hdo, hpass]

/-- The function `set_thruster` always returns: the design point, then the
effect of `bladeElement` on it. -/
theorem set_thruster_spec (m : Math) (_propulsion : Propulsion) (mrpm : ℚ) (p : Propeller) :
    ∃ groups : List (List _performance_t),
      List.Forall₂
        (fun pitch g => sweep m ((p.designPoint m _propulsion mrpm).bladeLocals m) pitch = some g)
        (List.iterate (fun x => x + 15) (if p._fixed_pitch then 0 else -15) (pitchPasses p))
        groups ∧
      p.set_thruster m _propulsion mrpm =
        some { p.designPoint m _propulsion mrpm with
          _max_chord := ((p.designPoint m _propulsion mrpm).bladeLocals m).max_chord,
          _performance := p._performance ++ groups.flatten,
          _pitch_levels := p._pitch_levels + pitchPasses p } := by
  obtain ⟨groups, hgs, hb⟩ := bladeElement_spec m (p.designPoint m _propulsion mrpm)
  exact ⟨groups, hgs, hb⟩

theorem _MAX_eq_max (a b : ℚ) : _MAX a b = max a b := by
  unfold _MAX
  split
  · rw [max_eq_left]; linarith
  · rw [max_eq_right]; linarith

theorem _MIN_eq_min (a b : ℚ) : _MIN a b = min a b := by
  unfold _MIN
  split
  · rw [min_eq_left]; linarith
  · rw [min_eq_right]; linarith

/-! ## Lists of equally long groups -/

theorem length_flatten_const {α : Type} (n : Nat) :
    ∀ (gs : List (List α)), (∀ g ∈ gs, g.length = n) → gs.flatten.length = gs.length * n := by
  intro gs
  induction gs with
  | nil => intro _; simp
  | cons g gs ih =>
    intro h
    have hg : g.length = n := h g (List.mem_cons_self _ _)
    have := ih (fun g' hg' => h g' (List.mem_cons_of_mem _ hg'))
    simp only [List.flatten_cons, List.length_append, List.length_cons, this, hg]
    ring

theorem getElem?_flatten_const {α : Type} (n : Nat) :
    ∀ (gs : List (List α)), (∀ g ∈ gs, g.length = n) → ∀ q i : Nat, i < n →
      gs.flatten[q * n + i]? = (gs[q]?).bind (fun g => g[i]?) := by
  intro gs
  induction gs with
  | nil => intro _ q i _; simp
  | cons g gs ih =>
    intro h q i hi
    have hg : g.length = n := h g (List.mem_cons_self _ _)
    have ih' := ih (fun g' hg' => h g' (List.mem_cons_of_mem _ hg'))
    cases q with
    | zero =>
      simp only [Nat.zero_mul, Nat.zero_add, List.flatten_cons, List.getElem?_cons_zero,
        Option.some_bind]
      rw [List.getElem?_append_left (by omega)]
    | succ q =>
      have hidx : (q + 1) * n + i = g.length + (q * n + i) := by rw [hg]; ring
      rw [List.getElem?_cons_succ, ← ih' q i hi, List.flatten_cons, hidx,
        List.getElem?_append_right (by omega)]
      congr 1
      omega

theorem forall₂_right_mem {α β : Type} {R : α → β → Prop} {l₁ : List α} {l₂ : List β}
    (h : List.Forall₂ R l₁ l₂) : ∀ b ∈ l₂, ∃ a ∈ l₁, R a b := by
  induction h with
  | nil => intro b hb; cases hb
  | cons hab _ ih =>
    intro b hb
    rcases List.mem_cons.mp hb with rfl | hb
    · exact ⟨_, List.mem_cons_self _ _, hab⟩
    · obtain ⟨a, ha, hR⟩ := ih b hb
      exact ⟨a, List.mem_cons_of_mem _ ha, hR⟩

/-! ## The advance ratios of one sweep -/

theorem jGrid_head : jGrid.head? = some 0.1 := rfl

theorem jGrid_chain : jGrid.Chain' (fun x y => x < y) := by
  simp only [jGrid, List.chain'_cons, List.chain'_singleton, and_true]
  norm_num

theorem jGrid_sorted : jGrid.Sorted (fun x y => x < y) :=
  (List.chain'_iff_pairwise).mp jGrid_chain

theorem jGrid_bounds : ∀ J ∈ jGrid, 0.1 ≤ J ∧ J < 2.4 := by
  intro J hJ
  simp only [jGrid, List.mem_cons, List.mem_singleton, List.not_mem_nil, or_false] at hJ
  rcases hJ with h | h | h | h | h | h | h | h | h | h | h | h | h | h | h | h | h | h | h | h | h | h | h | h | h | h | h | h | h | h | h | h | h | h | h | h <;> (rw [h]; norm_num)

theorem jGrid_steps :
    jGrid.Chain' (fun x y => y - x = if x ≤ 1.36 then 0.05 else 0.1) := by
  simp only [jGrid, List.chain'_cons, List.chain'_singleton, and_true]
  norm_num

/-! ## Design-point sizing -/

/-- C1: for every positive diameter and every engine RPM, `set_thruster`
returns with `_max_rpm = 18763/_diameter` and
`_gear_ratio = max(_engine_rpm/_max_rpm, 1)`, hence `_gear_ratio >= 1`; for
diameter 8 and engine RPM 2100 this is `_max_rpm = 2345.375` and
`_gear_ratio = 1`. -/
theorem set_thruster_gear_ratio (m : Math) (_propulsion : Propulsion) (mrpm : ℚ) (p : Propeller)
    (hd : 0 < p._diameter) :
    ∃ p', p.set_thruster m _propulsion mrpm = some p' ∧
      p'._engine_rpm = mrpm ∧
      p'._max_rpm = 18763 / p._diameter ∧
      p'._gear_ratio = max (p'._engine_rpm / p'._max_rpm) 1 ∧
      0 < p'._max_rpm ∧
      1 ≤ p'._gear_ratio ∧
      (p._diameter = 8 → mrpm = 2100 → p'._max_rpm = 2345.375 ∧ p'._gear_ratio = 1) := by
  obtain ⟨groups, -, hs⟩ := set_thruster_spec m _propulsion mrpm p
  refine ⟨_, hs, rfl, ?_, ?_, ?_, ?_, ?_⟩
  · simp only [Propeller.designPoint]; norm_num
  · simp only [Propeller.designPoint, _MAX_eq_max]; norm_num
  · simp only [Propeller.designPoint]; positivity
  · simp only [Propeller.designPoint, _MAX_eq_max]; norm_num
  · intro h8 h2100
    simp only [Propeller.designPoint, _MAX_eq_max, h8, h2100]
    norm_num

/-- C1 at the constructor's propeller (diameter 8) and engine RPM 2100. -/
theorem set_thruster_gear_ratio_witness :
    ∃ p', Propeller.construct.set_thruster coarseMath samplePropulsion 2100 = some p' ∧
      p'._engine_rpm = 2100 ∧
      p'._max_rpm = 18763 / Propeller.construct._diameter ∧
      p'._gear_ratio = max (p'._engine_rpm / p'._max_rpm) 1 ∧
      0 < p'._max_rpm ∧
      1 ≤ p'._gear_ratio ∧
      (Propeller.construct._diameter = 8 → (2100 : ℚ) = 2100 →
        p'._max_rpm = 2345.375 ∧ p'._gear_ratio = 1) :=
  set_thruster_gear_ratio coarseMath samplePropulsion 2100 Propeller.construct
    (by norm_num [Propeller.construct])

theorem estimateBlades_mono : Monotone estimateBlades := by
  intro a b hab
  unfold estimateBlades
  split_ifs <;> first | omega | (exfalso; linarith)

/-- C2: `set_thruster` returns with `_blades` the step function
`estimateBlades` of `_Cp0`, which is monotone non-decreasing, takes only the
values 2, 3, 4, 6, 8, and is 2 below 0.035, 3 on [0.035, 0.065], 4 on
(0.065, 0.105], 6 on (0.105, 0.160] and 8 above 0.160; it is 2, 4, 6, 8 at
0.02, 0.08, 0.12, 0.20; for diameter 8 and 180 hp, `_Cp0` is
`180*550/0.002378/(max_rpm/60)^3/8^5` and the count is 2, within {2, 3, 4}. -/
theorem set_thruster_blades (m : Math) (_propulsion : Propulsion) (mrpm : ℚ) (p : Propeller) :
    ∃ p', p.set_thruster m _propulsion mrpm = some p' ∧
      p'._blades = estimateBlades p'._Cp0 ∧
      Monotone estimateBlades ∧
      (∀ c, estimateBlades c ∈ [2, 3, 4, 6, 8]) ∧
      (∀ c, c < 0.035 → estimateBlades c = 2) ∧
      (∀ c, 0.035 ≤ c → c ≤ 0.065 → estimateBlades c = 3) ∧
      (∀ c, 0.065 < c → c ≤ 0.105 → estimateBlades c = 4) ∧
      (∀ c, 0.105 < c → c ≤ 0.160 → estimateBlades c = 6) ∧
      (∀ c, 0.160 < c → estimateBlades c = 8) ∧
      estimateBlades 0.02 = 2 ∧ estimateBlades 0.08 = 4 ∧
      estimateBlades 0.12 = 6 ∧ estimateBlades 0.20 = 8 ∧
      (p._diameter = 8 → _propulsion._power = 180 →
        p'._Cp0 = 180 * 550 / 0.002378 / (p'._max_rpm / 60) ^ 3 / 8 ^ 5 ∧
        p'._blades = 2 ∧ p'._blades ∈ [2, 3, 4]) := by
  obtain ⟨groups, -, hs⟩ := set_thruster_spec m _propulsion mrpm p
  refine ⟨_, hs, rfl, estimateBlades_mono, ?_, ?_, ?_, ?_, ?_, ?_, ?_, ?_, ?_, ?_, ?_⟩
  · intro c
    unfold estimateBlades
    split_ifs <;> simp
  · intro c h
    simp [estimateBlades, h]
  · intro c h1 h2
    unfold estimateBlades
    rw [if_neg (by linarith), if_neg (by linarith), if_neg (by linarith), if_neg (by linarith)]
  · intro c h1 h2
    unfold estimateBlades
    rw [if_neg (by linarith), if_neg (by linarith), if_neg (by linarith), if_pos h1]
  · intro c h1 h2
    unfold estimateBlades
    rw [if_neg (by linarith), if_neg (by linarith), if_pos h1]
  · intro c h1
    unfold estimateBlades
    rw [if_neg (by linarith), if_pos h1]
  · norm_num [estimateBlades]
  · norm_num [estimateBlades]
  · norm_num [estimateBlades]
  · norm_num [estimateBlades]
  · intro h8 hp
    have hcp : (p.designPoint m _propulsion mrpm)._Cp0 =
        180 * 550 / 0.002378 / ((p.designPoint m _propulsion mrpm)._max_rpm / 60) ^ 3 / 8 ^ 5 := by
      simp only [Propeller.designPoint, h8, hp]
      norm_num
    have hb : (p.designPoint m _propulsion mrpm)._blades = 2 := by
      show estimateBlades (p.designPoint m _propulsion mrpm)._Cp0 = 2
      rw [hcp]
      simp only [Propeller.designPoint, h8]
      norm_num [estimateBlades]
    refine ⟨hcp, hb, ?_⟩
    show (p.designPoint m _propulsion mrpm)._blades ∈ [2, 3, 4]
    rw [hb]
    simp

/-- C2 at the constructor's propeller with 180 hp and engine RPM 2100. -/
theorem set_thruster_blades_witness :
    ∃ p', Propeller.construct.set_thruster coarseMath samplePropulsion 2100 = some p' ∧
      p'._blades = 2 := by
  obtain ⟨p', h, _, _, _, _, _, _, _, _, _, _, _, _, hsc⟩ :=
    set_thruster_blades coarseMath samplePropulsion 2100 Propeller.construct
  exact ⟨p', h, (hsc (by norm_num [Propeller.construct]) (by norm_num [samplePropulsion])).2.1⟩

/-! ## The performance sweep -/

theorem sweep_advance_ratios (m : Math) (l : BladeLocals) (pitch : ℚ) (g : List _performance_t)
    (h : sweep m l pitch = some g) : g.map (fun e => e.J) = jGrid := by
  obtain ⟨g', hg', _, hJ, _⟩ := sweep_spec m l pitch
  rw [hg'] at h
  cases h
  exact hJ

theorem groups_length (m : Math) (l : BladeLocals) {pitches : List ℚ}
    {groups : List (List _performance_t)}
    (h : List.Forall₂ (fun pitch g => sweep m l pitch = some g) pitches groups) :
    ∀ g ∈ groups, g.length = 36 := by
  intro g hg
  obtain ⟨pitch, _, hs⟩ := forall₂_right_mem h g hg
  exact sweep_length m l pitch g hs

theorem pitchPasses_fresh (p : Propeller) (h0 : p._pitch_levels = 0) :
    pitchPasses p = if p._fixed_pitch then 1 else 6 := by
  unfold pitchPasses NUM_PROP_PITCHES
  rw [h0]
  rfl

/-- C3: on a freshly constructed propeller (`_pitch_levels = 0`, `_performance`
empty) `bladeElement` returns with `_pitch_levels` 1 for fixed pitch and 6 for
variable pitch, and `_performance` is that many consecutive groups, each the
output of one `J` sweep; every `J` sweep, whatever its pitch offset, pushes the
same number `n > 0` of entries, so all groups have the length `n` and the size
of `_performance` is `_pitch_levels * n` (for variable pitch a group has
size / 6 entries). -/
theorem bladeElement_groups (m : Math) (p : Propeller) (h0 : p._pitch_levels = 0)
    (hp : p._performance = []) :
    ∃ (p' : Propeller) (groups : List (List _performance_t)) (n : Nat),
      p.bladeElement m = some p' ∧
      p'._pitch_levels = (if p._fixed_pitch then 1 else 6) ∧
      groups.length = p'._pitch_levels ∧
      p'._performance = groups.flatten ∧
      (∀ g ∈ groups, ∃ pitch, sweep m (p.bladeLocals m) pitch = some g) ∧
      0 < n ∧
      (∀ pitch g, sweep m (p.bladeLocals m) pitch = some g → g.length = n) ∧
      (∀ g ∈ groups, g.length = n) ∧
      p'._performance.length = p'._pitch_levels * n ∧
      (p._fixed_pitch = false → ∀ g ∈ groups, g.length = p'._performance.length / 6) := by
  obtain ⟨groups, hgs, hb⟩ := bladeElement_spec m p
  have hlen := groups_length m _ hgs
  have hcount : groups.length = pitchPasses p := by
    rw [← hgs.length_eq, List.length_iterate]
  have hflat := length_flatten_const 36 groups hlen
  refine ⟨_, groups, 36, hb, ?_, ?_, ?_, ?_, by norm_num, ?_, hlen, ?_, ?_⟩
  · simp only [h0, Nat.zero_add]
    exact pitchPasses_fresh p h0
  · simp only [h0, Nat.zero_add]
    exact hcount
  · simp only [hp, List.nil_append]
  · intro g hg
    obtain ⟨pitch, _, hs⟩ := forall₂_right_mem hgs g hg
    exact ⟨pitch, hs⟩
  · intro pitch g hs
    exact sweep_length m _ pitch g hs
  · simp only [hp, List.nil_append, h0, Nat.zero_add]
    rw [hflat, hcount]
  · intro hv g hg
    simp only [hp, List.nil_append]
    rw [hflat, hcount, pitchPasses_fresh p h0, hlen g hg]
    simp [hv]

/-- C3 at the constructor's propeller, which is fixed pitch (one group), and at
its variable-pitch variant (six groups of one length). -/
theorem bladeElement_groups_witness :
    (∃ (p' : Propeller) (groups : List (List _performance_t)) (n : Nat),
      Propeller.construct.bladeElement coarseMath = some p' ∧
      p'._pitch_levels = 1 ∧ groups.length = 1 ∧ p'._performance = groups.flatten ∧
      0 < n ∧ (∀ g ∈ groups, g.length = n) ∧ p'._performance.length = 1 * n) ∧
    (∃ (p' : Propeller) (groups : List (List _performance_t)) (n : Nat),
      variablePropeller.bladeElement coarseMath = some p' ∧
      p'._pitch_levels = 6 ∧ groups.length = 6 ∧ p'._performance = groups.flatten ∧
      0 < n ∧ (∀ g ∈ groups, g.length = n) ∧ p'._performance.length = 6 * n ∧
      ∀ g ∈ groups, g.length = p'._performance.length / 6) := by
  constructor
  · obtain ⟨p', groups, n, h, hl, hg, hf, _, hn0, _, hgn, hn, _⟩ :=
      bladeElement_groups coarseMath Propeller.construct rfl rfl
    have hl1 : p'._pitch_levels = 1 := hl
    rw [hl1] at hg hn
    exact ⟨p', groups, n, h, hl1, hg, hf, hn0, hgn, hn⟩
  · obtain ⟨p', groups, n, h, hl, hg, hf, _, hn0, _, hgn, hn, hsix⟩ :=
      bladeElement_groups coarseMath variablePropeller rfl rfl
    have hl6 : p'._pitch_levels = 6 := hl
    rw [hl6] at hg hn
    exact ⟨p', groups, n, h, hl6, hg, hf, hn0, hgn, hn, hsix rfl⟩

/-- C4: `bladeElement` returns having appended at least one group, and within
every group it appends (the output of one `J` sweep) the advance ratios start
at 0.1, are strictly increasing, lie in [0.1, 2.4), and consecutive ones
differ by 0.05 when the earlier one is at most 1.36 and by 0.1 otherwise. -/
theorem bladeElement_advance_ratios (m : Math) (p : Propeller) :
    ∃ (p' : Propeller) (groups : List (List _performance_t)),
      p.bladeElement m = some p' ∧
      p'._performance = p._performance ++ groups.flatten ∧
      groups ≠ [] ∧
      ∀ g ∈ groups,
        (∃ pitch, sweep m (p.bladeLocals m) pitch = some g) ∧
        (g.map (fun e => e.J)).head? = some 0.1 ∧
        (g.map (fun e => e.J)).Sorted (fun x y => x < y) ∧
        (∀ e ∈ g, 0.1 ≤ e.J ∧ e.J < 2.4) ∧
        (g.map (fun e => e.J)).Chain' (fun x y => y - x = if x ≤ 1.36 then 0.05 else 0.1) := by
  obtain ⟨groups, hgs, hb⟩ := bladeElement_spec m p
  refine ⟨_, groups, hb, rfl, ?_, ?_⟩
  · intro hnil
    have hlen := hgs.length_eq
    rw [List.length_iterate, hnil] at hlen
    have := pitchPasses_pos p
    simp at hlen
    omega
  · intro g hg
    obtain ⟨pitch, _, hs⟩ := forall₂_right_mem hgs g hg
    have hJ := sweep_advance_ratios m _ pitch g hs
    refine ⟨⟨pitch, hs⟩, ?_, ?_, ?_, ?_⟩
    · rw [hJ]; exact jGrid_head
    · rw [hJ]; exact jGrid_sorted
    · intro e he
      apply jGrid_bounds
      rw [← hJ]
      exact List.mem_map_of_mem _ he
    · rw [hJ]; exact jGrid_steps

theorem pitchHeader_eq : pitchHeader = [-15, 0, 15, 30, 45, 60] := by decide

theorem iterate_pitchHeader :
    List.iterate (fun x : ℚ => x + 15) (-15) 6 = pitchHeader.map (fun h : Int => (h : ℚ)) := by
  rw [pitchHeader_eq]
  simp only [List.iterate, List.map]
  norm_num

/-- The first run on a variable-pitch propeller: six groups, the `q`-th swept
at the offset of the `q`-th column header. -/
theorem bladeElement_variable (m : Math) (p : Propeller) (hv : p._fixed_pitch = false)
    (h0 : p._pitch_levels = 0) (hp : p._performance = []) :
    ∃ groups : List (List _performance_t),
      List.Forall₂ (fun (h : Int) g => sweep m (p.bladeLocals m) (h : ℚ) = some g)
        pitchHeader groups ∧
      p.bladeElement m =
        some { p with _max_chord := (p.bladeLocals m).max_chord,
                      _performance := groups.flatten,
                      _pitch_levels := 6 } := by
  obtain ⟨groups, hgs, hb⟩ := bladeElement_spec m p
  refine ⟨groups, ?_, ?_⟩
  · rw [pitchPasses_fresh p h0] at hgs
    simp only [hv, Bool.false_eq_true, if_false] at hgs
    rw [iterate_pitchHeader, List.forall₂_map_left_iff] at hgs
    exact hgs
  · rw [hb, pitchPasses_fresh p h0, hp, h0]
    simp [hv]

/-- The first run on a fixed-pitch propeller: one group, swept at offset 0. -/
theorem bladeElement_fixed (m : Math) (p : Propeller) (hf : p._fixed_pitch = true)
    (h0 : p._pitch_levels = 0) (hp : p._performance = []) :
    ∃ g : List _performance_t,
      sweep m (p.bladeLocals m) 0 = some g ∧
      p.bladeElement m =
        some { p with _max_chord := (p.bladeLocals m).max_chord,
                      _performance := g,
                      _pitch_levels := 1 } := by
  obtain ⟨groups, hgs, hb⟩ := bladeElement_spec m p
  rw [pitchPasses_fresh p h0] at hgs
  simp only [hf, if_true, List.iterate] at hgs
  obtain ⟨g, gs, hg, hnil, rfl⟩ := List.forall₂_cons_left_iff.mp hgs
  have : gs = [] := by cases hnil; rfl
  subst this
  refine ⟨g, hg, ?_⟩
  rw [hb, pitchPasses_fresh p h0, hp, h0]
  simp [hf]

/-- In a flat sequence of sweeps, entry `q*36 + i` exists and carries the
`i`-th advance ratio of the sweep. -/
theorem entry_advance_ratio (groups : List (List _performance_t))
    (hJ : ∀ g ∈ groups, g.map (fun e => e.J) = jGrid) (q i : Nat) (hq : q < groups.length)
    (hi : i < 36) :
    ∃ e, groups.flatten[q * 36 + i]? = some e ∧ jGrid[i]? = some e.J := by
  have hlen : ∀ g ∈ groups, g.length = 36 := by
    intro g hg
    rw [← jGrid_length, ← hJ g hg, List.length_map]
  have hgq : groups[q] ∈ groups := List.getElem_mem hq
  have hi' : i < groups[q].length := by rw [hlen _ hgq]; exact hi
  refine ⟨groups[q][i], ?_, ?_⟩
  · rw [getElem?_flatten_const 36 groups hlen q i hi, List.getElem?_eq_getElem hq,
      Option.some_bind, List.getElem?_eq_getElem hi']
  · rw [← hJ _ hgq, List.getElem?_map, List.getElem?_eq_getElem hi']
    rfl

/-- C7: for a variable-pitch propeller on which `set_thruster` runs once,
`_pitch_levels` is non-zero, `size = _performance.size() / _pitch_levels`
satisfies `_performance.size() = 6 * size`, every index `q*size + i` read by
`thruster` (`q < 6`, `i < size`) is within bounds, and the entry there has the
advance ratio of entry `i`; the table has `size` rows of 6 cells, all read
within bounds. -/
theorem thruster_partition (m : Math) (_propulsion : Propulsion) (mrpm : ℚ) (p : Propeller)
    (hv : p._fixed_pitch = false) (h0 : p._pitch_levels = 0) (hp : p._performance = []) :
    ∃ p', p.set_thruster m _propulsion mrpm = some p' ∧
      p'._pitch_levels ≠ 0 ∧
      p'.size = p'._performance.length / p'._pitch_levels ∧
      p'._performance.length = NUM_PROP_PITCHES * p'.size ∧
      (∀ q i, q < NUM_PROP_PITCHES → i < p'.size →
        q * p'.size + i < p'._performance.length ∧
        ∃ e ei, p'._performance[q * p'.size + i]? = some e ∧ p'._performance[i]? = some ei ∧
          e.J = ei.J) ∧
      (∀ val, (p'.pitchTable val).length = p'.size ∧
        ∀ row ∈ p'.pitchTable val, row.J.isSome = true ∧ row.cells.length = NUM_PROP_PITCHES ∧
          ∀ c ∈ row.cells, c.isSome = true) := by
  obtain ⟨groups, hgs, hb⟩ := bladeElement_variable m (p.designPoint m _propulsion mrpm) hv h0 hp
  have hJ : ∀ g ∈ groups, g.map (fun e => e.J) = jGrid := by
    intro g hg
    obtain ⟨h, _, hs⟩ := forall₂_right_mem hgs g hg
    exact sweep_advance_ratios m _ _ g hs
  have hlen : ∀ g ∈ groups, g.length = 36 := by
    intro g hg
    rw [← jGrid_length, ← hJ g hg, List.length_map]
  have hcount : groups.length = 6 := by
    rw [← hgs.length_eq, pitchHeader_eq]
    rfl
  have hflat : groups.flatten.length = 216 := by
    rw [length_flatten_const 36 groups hlen, hcount]
  have hread : ∀ q i, q < 6 → i < 36 → ∃ e, groups.flatten[q * 36 + i]? = some e ∧
      jGrid[i]? = some e.J := by
    intro q i hq hi
    exact entry_advance_ratio groups hJ q i (by rw [hcount]; exact hq) hi
  have key : ∀ p' : Propeller, p'._performance = groups.flatten → p'._pitch_levels = 6 →
      p'._pitch_levels ≠ 0 ∧
      p'.size = p'._performance.length / p'._pitch_levels ∧
      p'._performance.length = NUM_PROP_PITCHES * p'.size ∧
      (∀ q i, q < NUM_PROP_PITCHES → i < p'.size →
        q * p'.size + i < p'._performance.length ∧
        ∃ e ei, p'._performance[q * p'.size + i]? = some e ∧ p'._performance[i]? = some ei ∧
          e.J = ei.J) ∧
      (∀ val, (p'.pitchTable val).length = p'.size ∧
        ∀ row ∈ p'.pitchTable val, row.J.isSome = true ∧ row.cells.length = NUM_PROP_PITCHES ∧
          ∀ c ∈ row.cells, c.isSome = true) := by
    intro p' hperf hlev
    have hsize : p'.size = 36 := by
      unfold Propeller.size
      rw [hperf, hflat, hlev]
    refine ⟨by omega, rfl, ?_, ?_, ?_⟩
    · rw [hsize, hperf, hflat]
      rfl
    · intro q i hq hi
      rw [hsize] at hi ⊢
      rw [hperf]
      obtain ⟨e, he, heJ⟩ := hread q i hq hi
      obtain ⟨ei, hei, heiJ⟩ := hread 0 i (by norm_num) hi
      rw [Nat.zero_mul, Nat.zero_add] at hei
      refine ⟨?_, e, ei, he, hei, ?_⟩
      · rw [hflat]
        unfold NUM_PROP_PITCHES at hq
        omega
      · rw [heJ] at heiJ
        exact Option.some.inj heiJ
    · intro val
      unfold Propeller.pitchTable
      simp only [List.length_map, List.length_range, List.mem_map, List.mem_range, true_and]
      rintro row ⟨i, hi, rfl⟩
      rw [hsize] at hi
      obtain ⟨ei, hei, -⟩ := hread 0 i (by norm_num) hi
      rw [Nat.zero_mul, Nat.zero_add] at hei
      refine ⟨?_, ?_, ?_⟩
      · simp only [hperf, hei, Option.map_some', Option.isSome_some]
      · simp only [List.length_map, List.length_range]
      · simp only [List.mem_map, List.mem_range]
        rintro c ⟨q, hq, rfl⟩
        obtain ⟨e, he, -⟩ := hread q i hq hi
        simp only [hperf, hsize, he, Option.map_some', Option.isSome_some]
  exact ⟨_, hb, key _ rfl rfl⟩

/-- C7 at the constructor's propeller switched to variable pitch. -/
theorem thruster_partition_witness :
    ∃ p', variablePropeller.set_thruster coarseMath samplePropulsion 2100 = some p' ∧
      p'._pitch_levels ≠ 0 ∧
      p'._performance.length = NUM_PROP_PITCHES * p'.size := by
  obtain ⟨p', h, hl, _, hn, _⟩ :=
    thruster_partition coarseMath samplePropulsion 2100 variablePropeller rfl rfl rfl
  exact ⟨p', h, hl, hn⟩

/-! ## Running the sweep twice -/

theorem bladeLocals_rerun (m : Math) (q : Propeller) (perf : List _performance_t) (n : Nat) :
    Propeller.bladeLocals m { q with _max_chord := (q.bladeLocals m).max_chord,
                                     _performance := perf, _pitch_levels := n } =
      q.bladeLocals m := by
  unfold Propeller.bladeLocals
  simp only [BladeLocals.mk.injEq, and_true, true_and]
  split_ifs <;> rfl

theorem designPoint_rerun (m : Math) (_propulsion : Propulsion) (mrpm : ℚ) (p : Propeller)
    (c : ℚ) (perf : List _performance_t) (n : Nat) :
    Propeller.designPoint m _propulsion mrpm
        { p.designPoint m _propulsion mrpm with
          _max_chord := c, _performance := perf, _pitch_levels := n } =
      { p.designPoint m _propulsion mrpm with
        _max_chord := c, _performance := perf, _pitch_levels := n } := rfl

/-- Two runs of `set_thruster` with the same inputs, the first on a fresh
propeller: both return; the second keeps what the first left, appends one more
group, equal to the first group of the first run, and counts one more pitch
level. -/
theorem set_thruster_rerun (m : Math) (_propulsion : Propulsion) (mrpm : ℚ) (p : Propeller)
    (h0 : p._pitch_levels = 0) (hp : p._performance = []) :
    ∃ (p1 p2 : Propeller) (g : List _performance_t) (rest : List (List _performance_t)),
      p.set_thruster m _propulsion mrpm = some p1 ∧
      p1.set_thruster m _propulsion mrpm = some p2 ∧
      sweep m ((p.designPoint m _propulsion mrpm).bladeLocals m)
        (if p._fixed_pitch then 0 else -15) = some g ∧
      g.length = 36 ∧
      p1._performance = g ++ rest.flatten ∧
      p1._pitch_levels = (if p._fixed_pitch then 1 else 6) ∧
      p1._performance.length = p1._pitch_levels * 36 ∧
      p2._performance = p1._performance ++ g ∧
      p2._pitch_levels = p1._pitch_levels + 1 := by
  obtain ⟨groups, hgs, hs⟩ := set_thruster_spec m _propulsion mrpm p
  have hlen := groups_length m _ hgs
  have hcount : groups.length = pitchPasses p := by
    rw [← hgs.length_eq, List.length_iterate]
  have hpass := pitchPasses_fresh p h0
  have h1 : 1 ≤ pitchPasses p := pitchPasses_pos p
  obtain ⟨k, hk⟩ : ∃ k, pitchPasses p = k + 1 := ⟨pitchPasses p - 1, by omega⟩
  rw [hk, List.iterate] at hgs
  obtain ⟨g, rest, hg, -, rfl⟩ := List.forall₂_cons_left_iff.mp hgs
  rw [hp, h0, List.nil_append, Nat.zero_add] at hs
  obtain ⟨groups2, hgs2, hs2⟩ := set_thruster_spec m _propulsion mrpm
    { p.designPoint m _propulsion mrpm with
      _max_chord := ((p.designPoint m _propulsion mrpm).bladeLocals m).max_chord,
      _performance := (g :: rest).flatten,
      _pitch_levels := pitchPasses p }
  rw [designPoint_rerun, bladeLocals_rerun] at hgs2 hs2
  have hpass2 : pitchPasses
      { p.designPoint m _propulsion mrpm with
        _max_chord := ((p.designPoint m _propulsion mrpm).bladeLocals m).max_chord,
        _performance := (g :: rest).flatten,
        _pitch_levels := pitchPasses p } = 1 := by
    unfold pitchPasses NUM_PROP_PITCHES
    show (if p._fixed_pitch = true then 1 else max 1 (6 - pitchPasses p)) = 1
    rw [hpass]
    split_ifs <;> simp
  rw [hpass2] at hgs2 hs2
  simp only [List.iterate] at hgs2
  obtain ⟨g2, gs2, hg2, hnil, rfl⟩ := List.forall₂_cons_left_iff.mp hgs2
  have hgs2nil : gs2 = [] := by cases hnil; rfl
  subst hgs2nil
  have hfix : (p.designPoint m _propulsion mrpm)._fixed_pitch = p._fixed_pitch := rfl
  have hg2' : sweep m ((p.designPoint m _propulsion mrpm).bladeLocals m)
      (if p._fixed_pitch then 0 else -15) = some g2 := hg2
  have hgg : g2 = g := by
    have hg' : sweep m ((p.designPoint m _propulsion mrpm).bladeLocals m)
      (if p._fixed_pitch then 0 else -15) = some g := hg
    rw [hg'] at hg2'
    exact (Option.some.inj hg2').symm
  subst hgg
  refine ⟨_, _, g2, rest, hs, hs2, hg2', sweep_length m _ _ g2 hg2', ?_, ?_, ?_, ?_, ?_⟩
  · simp only [List.flatten_cons]
  · exact hpass
  · show (g2 :: rest).flatten.length = pitchPasses p * 36
    rw [length_flatten_const 36 _ hlen, hcount]
  · simp only [List.flatten_cons, List.flatten_nil, List.append_nil]
  · rfl

/-- C5, as the code has it: of two runs of `set_thruster` with identical
inputs, the first on a fresh propeller, both return, and the second keeps the
state of the first: it appends one further, non-empty group after the first
run's sequence, equal to the first group of the first run (for fixed pitch the
whole first sequence once more), and raises `_pitch_levels` by one (1 to 2 for
fixed pitch, 6 to 7 for variable pitch), so neither the sequence nor the count
is that of the first run. -/
theorem set_thruster_second_run (m : Math) (_propulsion : Propulsion) (mrpm : ℚ)
    (p : Propeller) (h0 : p._pitch_levels = 0) (hp : p._performance = []) :
    ∃ (p1 p2 : Propeller) (g : List _performance_t),
      p.set_thruster m _propulsion mrpm = some p1 ∧
      p1.set_thruster m _propulsion mrpm = some p2 ∧
      sweep m ((p.designPoint m _propulsion mrpm).bladeLocals m)
        (if p._fixed_pitch then 0 else -15) = some g ∧
      g ≠ [] ∧
      p1._performance.take g.length = g ∧
      p1._pitch_levels = (if p._fixed_pitch then 1 else 6) ∧
      p2._performance = p1._performance ++ g ∧
      p2._pitch_levels = p1._pitch_levels + 1 ∧
      p2._performance.length = p1._performance.length + g.length ∧
      (p._fixed_pitch = true → p2._performance = p1._performance ++ p1._performance) ∧
      p2._performance ≠ p1._performance ∧
      p2._pitch_levels ≠ p1._pitch_levels := by
  obtain ⟨p1, p2, g, rest, hs1, hs2, hg, hglen, hperf1, hlev1, hlen1, hperf2, hlev2⟩ :=
    set_thruster_rerun m _propulsion mrpm p h0 hp
  have hgne : g ≠ [] := by
    intro h
    rw [h] at hglen
    simp at hglen
  have hlen2 : p2._performance.length = p1._performance.length + g.length := by
    rw [hperf2, List.length_append]
  refine ⟨p1, p2, g, hs1, hs2, hg, hgne, ?_, hlev1, hperf2, hlev2, hlen2, ?_, ?_, ?_⟩
  · rw [hperf1, List.take_left']
    rfl
  · intro hf
    have hone : p1._pitch_levels = 1 := by rw [hlev1]; simp [hf]
    have hrest : rest.flatten = [] := by
      apply List.eq_nil_of_length_eq_zero
      have := hlen1
      rw [hperf1, List.length_append, hglen, hone] at this
      omega
    rw [hperf2, hperf1, hrest, List.append_nil]
  · intro h
    rw [h, hglen] at hlen2
    omega
  · omega

/-- C5 as amended, at the constructor's propeller: the second run leaves two
pitch levels and the first sequence twice. -/
theorem set_thruster_second_run_witness :
    ∃ (p1 p2 : Propeller),
      Propeller.construct.set_thruster coarseMath samplePropulsion 2100 = some p1 ∧
      p1.set_thruster coarseMath samplePropulsion 2100 = some p2 ∧
      p1._pitch_levels = 1 ∧ p2._pitch_levels = p1._pitch_levels + 1 ∧
      p2._performance = p1._performance ++ p1._performance := by
  obtain ⟨p1, p2, g, hs1, hs2, _, _, _, hlev1, _, hlev2, _, hfix, _⟩ :=
    set_thruster_second_run coarseMath samplePropulsion 2100 Propeller.construct rfl rfl
  exact ⟨p1, p2, hs1, hs2, hlev1, hlev2, hfix rfl⟩

/-- C5 as stated fails: on the constructor's propeller (fixed pitch, diameter
8) with 180 hp and engine RPM 2100, the first run leaves a non-empty sequence
and one pitch level, the second run with the same inputs leaves that sequence
twice over, of double the length, and two pitch levels. -/
theorem set_thruster_rerun_counterexample :
    ∃ (p1 p2 : Propeller),
      Propeller.construct.set_thruster coarseMath samplePropulsion 2100 = some p1 ∧
      p1.set_thruster coarseMath samplePropulsion 2100 = some p2 ∧
      p1._pitch_levels = 1 ∧ p2._pitch_levels = 2 ∧
      p1._performance ≠ [] ∧
      p2._performance = p1._performance ++ p1._performance ∧
      p2._performance.length = 2 * p1._performance.length ∧
      p2._performance ≠ p1._performance := by
  obtain ⟨p1, p2, g, rest, hs1, hs2, _, hglen, hperf1, hlev1, hlen1, hperf2, hlev2⟩ :=
    set_thruster_rerun coarseMath samplePropulsion 2100 Propeller.construct rfl rfl
  have hl1 : p1._pitch_levels = 1 := hlev1
  have hn1 : p1._performance.length = g.length := by rw [hlen1, hl1, hglen]
  have hrest : rest.flatten = [] := by
    apply List.eq_nil_of_length_eq_zero
    have := hn1
    rw [hperf1, List.length_append] at this
    omega
  have hp1g : p1._performance = g := by rw [hperf1, hrest, List.append_nil]
  have hpos : 0 < p1._performance.length := by rw [hn1, hglen]; norm_num
  have hdouble : p2._performance = p1._performance ++ p1._performance := by
    rw [hperf2, hp1g]
  refine ⟨p1, p2, hs1, hs2, hl1, by rw [hlev2, hl1], ?_, hdouble, ?_, ?_⟩
  · intro h
    rw [h] at hpos
    simp at hpos
  · rw [hdouble, List.length_append]
    omega
  · intro h
    have : p2._performance.length = p1._performance.length := by rw [h]
    rw [hdouble, List.length_append] at this
    omega

/-! ## Propwash corrections -/

/-- C8, as the code has it: with `alpha_max = (dCLmax - dCL0)/dCLalpha`, the
first, zero-valued row of the lift table has angle of attack
`min(-dCL0/alpha_max, -0.01)`: the divisor is `alpha_max`, not the slope
`dCLalpha`; the remaining rows are `(0, dCL0)`, `(alpha_max, dCLmax)` and
`(2*alpha_max, 0)`, the second column being `FACT` times the first; after
`set_thruster` the three inputs are the aircraft's `_CL0`, `_CLmax`, `_CLaw`
scaled by `0.96*_diameter/span`. -/
theorem lift_rows (m : Math) (_propulsion : Propulsion) (mrpm : ℚ) (p : Propeller) :
    ∃ p', p.set_thruster m _propulsion mrpm = some p' ∧
      p'._dCLT0 = _propulsion._aircraft._CL0 * (0.96 * p._diameter / _propulsion._aircraft._wing_span) ∧
      p'._dCLTmax =
        _propulsion._aircraft._CLmax * (0.96 * p._diameter / _propulsion._aircraft._wing_span) ∧
      p'._dCLTalpha =
        _propulsion._aircraft._CLaw * (0.96 * p._diameter / _propulsion._aircraft._wing_span) ∧
      p'.lift =
        [ { alpha := min (-p'._dCLT0 / ((p'._dCLTmax - p'._dCLT0) / p'._dCLTalpha)) (-0.01),
            flap0 := 0, flap60 := 0 },
          { alpha := 0, flap0 := p'._dCLT0, flap60 := 2.667 * p'._dCLT0 },
          { alpha := (p'._dCLTmax - p'._dCLT0) / p'._dCLTalpha,
            flap0 := p'._dCLTmax, flap60 := 2.667 * p'._dCLTmax },
          { alpha := 2 * ((p'._dCLTmax - p'._dCLT0) / p'._dCLTalpha), flap0 := 0, flap60 := 0 } ] := by
  obtain ⟨groups, -, hs⟩ := set_thruster_spec m _propulsion mrpm p
  refine ⟨_, hs, rfl, rfl, rfl, ?_⟩
  simp only [Propeller.lift, _MIN_eq_min, FACT]
  norm_num

/-- C8 as stated fails: for the constructor's propeller on the sample aircraft
(`_CL0 = 0.25`, `_CLmax = 1.4`, `_CLaw = 5`, span 36) the first row of the lift
table is at `-16/69`, about -0.232, while `min(-dCL0/dCLalpha, -0.01)` is
`-0.05`. -/
theorem lift_first_row_counterexample :
    ∃ p', Propeller.construct.set_thruster coarseMath samplePropulsion 2100 = some p' ∧
      p'.lift.map (fun r => r.alpha) = [-16 / 69, 0, 23 / 100, 23 / 50] ∧
      min (-p'._dCLT0 / p'._dCLTalpha) (-0.01) = -0.05 ∧
      p'.lift.head? ≠
        some { alpha := min (-p'._dCLT0 / p'._dCLTalpha) (-0.01), flap0 := 0, flap60 := 0 } := by
  obtain ⟨groups, -, hs⟩ :=
    set_thruster_spec coarseMath samplePropulsion 2100 Propeller.construct
  refine ⟨_, hs, ?_, ?_, ?_⟩
  · simp only [Propeller.lift, Propeller.designPoint, Propeller.construct, samplePropulsion,
      sampleAircraft, _MIN_eq_min, List.map]
    norm_num
  · simp only [Propeller.designPoint, Propeller.construct, samplePropulsion, sampleAircraft]
    norm_num
  · simp only [Propeller.lift, Propeller.designPoint, Propeller.construct, samplePropulsion,
      sampleAircraft, _MIN_eq_min, List.head?]
    norm_num

theorem range_one_eq : List.range 1 = [0] := rfl

theorem sq_div_eq_one (y h : ℚ) (hh : 0 < h) : (y / h) ^ 2 = 1 ↔ |y| = h := by
  have hne : h ^ 2 ≠ 0 := by positivity
  rw [div_pow, div_eq_one_iff_eq hne, sq_eq_sq_iff_abs_eq_abs, abs_of_pos hh]

/-- C9, as the code has it: when `_prop_span_left` equals `_diameter/2`, `k` is
0 and `dClT` is `_dCLTalpha/6`, zero only for a zero slope; for a wingspan
above 0, `dClT` is zero exactly when the slope is zero or
`|_prop_span_left - _diameter/2|` is half the wingspan (`k = 1` or `k = -1`). -/
theorem roll_value (aircraft : Aeromatic) (p : Propeller) (hspan : 0 < aircraft._wing_span) :
    (p._prop_span_left = p._diameter / 2 → p.roll aircraft = p._dCLTalpha / 6) ∧
    (p.roll aircraft = 0 ↔
      p._dCLTalpha = 0 ∨ |p._prop_span_left - p._diameter / 2| = aircraft._wing_span / 2) := by
  have hpos : 0 < aircraft._wing_span / 2 := by positivity
  have hroll : p.roll aircraft =
      (p._dCLTalpha / 6) *
        (1 - ((p._prop_span_left - p._diameter / 2) / (aircraft._wing_span / 2)) ^ 2) := by
    simp only [Propeller.roll]
    norm_num
    ring
  constructor
  · intro h
    rw [hroll, h]
    norm_num
  · rw [hroll, mul_eq_zero, sub_eq_zero, eq_comm (a := (1 : ℚ)), sq_div_eq_one _ _ hpos]
    constructor
    · rintro (h | h)
      · left; linarith
      · right; exact h
    · rintro (h | h)
      · left; rw [h]; norm_num
      · right; exact h

/-- C9 as amended, on the sample aircraft (span 36) for a propeller of
diameter 8 centred at spanwise offset 4 with slope 0.6: `dClT = 0.1`. -/
theorem roll_value_witness :
    Propeller.roll sampleAircraft
      { Propeller.construct with _prop_span_left := 4, _dCLTalpha := 0.6 } = 0.1 := by
  have h := (roll_value sampleAircraft
    { Propeller.construct with _prop_span_left := 4, _dCLTalpha := 0.6 }
    (by norm_num [sampleAircraft])).1 (by norm_num [Propeller.construct])
  rw [h]
  norm_num

/-- C9 as stated fails: with the single engine of the sample aircraft on the
left wing at spanwise offset 4, `set_thruster` on the constructor's propeller
(diameter 8) leaves `_prop_span_left = 4 = _diameter/2`, and `roll` then
computes `dClT = 8/45`, about 0.178, not zero. -/
theorem roll_symmetric_counterexample :
    ∃ p', Propeller.construct.set_thruster coarseMath leftWingPropulsion 2100 = some p' ∧
      p'._prop_span_left = p'._diameter / 2 ∧
      0 < leftWingPropulsion._aircraft._wing_span ∧
      p'.roll leftWingPropulsion._aircraft = 8 / 45 ∧
      p'.roll leftWingPropulsion._aircraft ≠ 0 := by
  obtain ⟨groups, -, hs⟩ :=
    set_thruster_spec coarseMath leftWingPropulsion 2100 Propeller.construct
  have hroll : Propeller.roll leftWingPropulsion._aircraft
      { Propeller.construct.designPoint coarseMath leftWingPropulsion 2100 with
        _max_chord := ((Propeller.construct.designPoint coarseMath leftWingPropulsion
          2100).bladeLocals coarseMath).max_chord,
        _performance := Propeller.construct._performance ++ groups.flatten,
        _pitch_levels := Propeller.construct._pitch_levels + pitchPasses Propeller.construct } =
      8 / 45 := by
    simp only [Propeller.roll, Propeller.designPoint, propSpan, mountBody, Propeller.construct,
      leftWingPropulsion, sampleAircraft, range_one_eq, List.foldl]
    norm_num
  refine ⟨_, hs, ?_, ?_, hroll, ?_⟩
  · simp only [Propeller.designPoint, propSpan, mountBody, Propeller.construct,
      leftWingPropulsion, sampleAircraft, range_one_eq, List.foldl]
    norm_num
  · norm_num [leftWingPropulsion, sampleAircraft]
  · rw [hroll]
    norm_num

/-! ## Spanwise thruster positions -/

/-- C11, as the code has it: `set_thruster` has no check and no error path; for
every diameter, power and engine RPM, non-positive ones included, it does the
design-point sizing, runs `bladeElement` and returns, with entries pushed onto
`_performance` and pitch levels counted exactly as for any other input: the
sequence grows, and from the same prior state (pitch flag, `_pitch_levels`,
size of `_performance`) any other diameter, power and engine RPM give the same
number of entries and pitch levels. -/
theorem set_thruster_no_validation (m : Math) (_propulsion : Propulsion) (mrpm : ℚ)
    (p : Propeller) :
    ∃ p', p.set_thruster m _propulsion mrpm = some p' ∧
      p'._engine_rpm = mrpm ∧
      p'._diameter = p._diameter ∧
      p._performance <+: p'._performance ∧
      p._performance.length < p'._performance.length ∧
      p'._performance ≠ [] ∧
      p._pitch_levels < p'._pitch_levels ∧
      (∀ (_propulsion' : Propulsion) (mrpm' : ℚ) (q : Propeller),
        q._fixed_pitch = p._fixed_pitch → q._pitch_levels = p._pitch_levels →
        q._performance.length = p._performance.length →
        ∃ q', q.set_thruster m _propulsion' mrpm' = some q' ∧
          q'._performance.length = p'._performance.length ∧
          q'._pitch_levels = p'._pitch_levels) := by
  obtain ⟨groups, hgs, hs⟩ := set_thruster_spec m _propulsion mrpm p
  have hlen := groups_length m _ hgs
  have hcount : groups.length = pitchPasses p := by
    rw [← hgs.length_eq, List.length_iterate]
  have hflat := length_flatten_const 36 groups hlen
  have hpos := pitchPasses_pos p
  have hnew : (p._performance ++ groups.flatten).length =
      p._performance.length + pitchPasses p * 36 := by
    rw [List.length_append, hflat, hcount]
  refine ⟨_, hs, rfl, rfl, ⟨groups.flatten, rfl⟩, ?_, ?_, ?_, ?_⟩
  · show p._performance.length < (p._performance ++ groups.flatten).length
    rw [hnew]
    omega
  · show p._performance ++ groups.flatten ≠ []
    intro h
    rw [h] at hnew
    simp at hnew
    omega
  · show p._pitch_levels < p._pitch_levels + pitchPasses p
    omega
  · intro _propulsion' mrpm' q hqf hql hqn
    obtain ⟨groups', hgs', hs'⟩ := set_thruster_spec m _propulsion' mrpm' q
    have hlen' := groups_length m _ hgs'
    have hcount' : groups'.length = pitchPasses q := by
      rw [← hgs'.length_eq, List.length_iterate]
    have hflat' := length_flatten_const 36 groups' hlen'
    have hpass : pitchPasses q = pitchPasses p := by
      unfold pitchPasses
      rw [hqf, hql]
    refine ⟨_, hs', ?_, ?_⟩
    · show (q._performance ++ groups'.flatten).length = (p._performance ++ groups.flatten).length
      rw [hnew, List.length_append, hflat', hcount', hpass, hqn]
    · show q._pitch_levels + pitchPasses q = p._pitch_levels + pitchPasses p
      rw [hql, hpass]

/-- C11 as amended, at the constructor's propeller with engine RPM 0 against
the same propeller with engine RPM 2100: both runs return, with equally many
entries. -/
theorem set_thruster_no_validation_witness :
    ∃ p' q', Propeller.construct.set_thruster coarseMath samplePropulsion 0 = some p' ∧
      Propeller.construct.set_thruster coarseMath samplePropulsion 2100 = some q' ∧
      p'._engine_rpm = 0 ∧ p'._performance ≠ [] ∧
      q'._performance.length = p'._performance.length := by
  obtain ⟨p', hs, hr, _, _, _, hne, _, hsame⟩ :=
    set_thruster_no_validation coarseMath samplePropulsion 0 Propeller.construct
  obtain ⟨q', hq, hlen, _⟩ := hsame samplePropulsion 2100 Propeller.construct rfl rfl rfl
  exact ⟨p', q', hs, hq, hr, hne, hlen⟩

/-- C11 as stated fails: with diameter -8, with power -180 and with engine RPM
-2100, each on the otherwise default fixed-pitch propeller, `set_thruster`
returns as on any input, with one pitch level counted and entries produced. -/
theorem set_thruster_validation_counterexample :
    (∃ p', Propeller.set_thruster coarseMath samplePropulsion 2100
        { Propeller.construct with _diameter := -8 } = some p' ∧
      p'._diameter = -8 ∧ p'._pitch_levels = 1 ∧ p'._performance ≠ []) ∧
    (∃ p', Propeller.construct.set_thruster coarseMath
        { samplePropulsion with _power := -180 } 2100 = some p' ∧
      p'._pitch_levels = 1 ∧ p'._performance ≠ []) ∧
    (∃ p', Propeller.construct.set_thruster coarseMath samplePropulsion (-2100) = some p' ∧
      p'._engine_rpm = -2100 ∧ p'._pitch_levels = 1 ∧ p'._performance ≠ []) := by
  have key : ∀ (_propulsion : Propulsion) (mrpm : ℚ) (p : Propeller),
      p._fixed_pitch = true → p._pitch_levels = 0 → p._performance = [] →
      ∃ p', p.set_thruster coarseMath _propulsion mrpm = some p' ∧
        p'._diameter = p._diameter ∧ p'._engine_rpm = mrpm ∧ p'._pitch_levels = 1 ∧
        p'._performance ≠ [] := by
    intro _propulsion mrpm p hf h0 hp
    obtain ⟨g, hg, hb⟩ :=
      bladeElement_fixed coarseMath (p.designPoint coarseMath _propulsion mrpm) hf h0 hp
    refine ⟨_, hb, rfl, rfl, rfl, ?_⟩
    show g ≠ []
    intro h
    have := sweep_length coarseMath _ _ g hg
    rw [h] at this
    simp at this
  refine ⟨?_, ?_, ?_⟩
  · obtain ⟨p', hs, hd, _, hl, hn⟩ := key samplePropulsion 2100
      { Propeller.construct with _diameter := -8 } rfl rfl rfl
    exact ⟨p', hs, hd, hl, hn⟩
  · obtain ⟨p', hs, _, _, hl, hn⟩ := key { samplePropulsion with _power := -180 } 2100
      Propeller.construct rfl rfl rfl
    exact ⟨p', hs, hl, hn⟩
  · obtain ⟨p', hs, _, hr, hl, hn⟩ := key samplePropulsion (-2100) Propeller.construct rfl rfl rfl
    exact ⟨p', hs, hr, hl, hn⟩

/-! ## Moment of inertia -/

theorem estimateBlades_ge (c : ℚ) : 2 ≤ estimateBlades c := by
  unfold estimateBlades
  split_ifs <;> omega

/-- The moment of inertia at the design point, with the blade count divided
out. -/
theorem designPoint_ixx (m : Math) (_propulsion : Propulsion) (mrpm : ℚ) (p : Propeller) :
    (p.designPoint m _propulsion mrpm)._ixx =
      0.33333 * 0.9 * massProp m p._diameter * (p._diameter / 2) ^ 2 +
        0.0005 * massProp m p._diameter * (p._diameter / 2) ^ 2 := by
  have hb : ((estimateBlades (p.designPoint m _propulsion mrpm)._Cp0 : ℕ) : ℚ) ≠ 0 := by
    have := estimateBlades_ge (p.designPoint m _propulsion mrpm)._Cp0
    have h2 : (2 : ℚ) ≤ (estimateBlades (p.designPoint m _propulsion mrpm)._Cp0 : ℚ) := by
      exact_mod_cast this
    linarith
  have hix : (p.designPoint m _propulsion mrpm)._ixx =
      (estimateBlades (p.designPoint m _propulsion mrpm)._Cp0 : ℚ) *
        (0.33333 * ((massProp m p._diameter - 0.1 * massProp m p._diameter) /
          (estimateBlades (p.designPoint m _propulsion mrpm)._Cp0 : ℚ)) *
          (p._diameter / 2) * (p._diameter / 2)) +
        0.5 * (0.1 * massProp m p._diameter) * (p._diameter / 2 * 0.1) *
          (p._diameter / 2 * 0.1) := rfl
  rw [hix]
  field_simp
  ring

/-- C14: `set_thruster` returns with at least one blade and with
`_ixx = _blades * (0.33333 * ((m - 0.1*m)/_blades) * L^2) + 0.5 * (0.1*m) * (0.1*L)^2`,
which for every blade count of at least 1 equals
`0.33333 * 0.9 * m * L^2 + 0.0005 * m * L^2` (`m` the propeller mass, a
function of the diameter, `L = _diameter/2`); so two propellers of equal
diameter get the same `_ixx`, whatever their power, engine RPM and `_Cp0`. -/
theorem set_thruster_ixx (m : Math) (_propulsion _propulsion' : Propulsion) (mrpm mrpm' : ℚ)
    (p q : Propeller) :
    ∃ p' q', p.set_thruster m _propulsion mrpm = some p' ∧
      q.set_thruster m _propulsion' mrpm' = some q' ∧
      1 ≤ p'._blades ∧
      p'._ixx =
        (p'._blades : ℚ) *
            (0.33333 * ((massProp m p._diameter - 0.1 * massProp m p._diameter) / p'._blades) *
              (p._diameter / 2) ^ 2) +
          0.5 * (0.1 * massProp m p._diameter) * (0.1 * (p._diameter / 2)) ^ 2 ∧
      (∀ (blades : ℕ) (mass L : ℚ), 1 ≤ blades →
        (blades : ℚ) * (0.33333 * ((mass - 0.1 * mass) / blades) * L ^ 2) +
            0.5 * (0.1 * mass) * (0.1 * L) ^ 2 =
          0.33333 * 0.9 * mass * L ^ 2 + 0.0005 * mass * L ^ 2) ∧
      p'._ixx =
        0.33333 * 0.9 * massProp m p._diameter * (p._diameter / 2) ^ 2 +
          0.0005 * massProp m p._diameter * (p._diameter / 2) ^ 2 ∧
      (p._diameter = q._diameter → p'._ixx = q'._ixx) := by
  obtain ⟨gp, -, hp⟩ := set_thruster_spec m _propulsion mrpm p
  obtain ⟨gq, -, hq⟩ := set_thruster_spec m _propulsion' mrpm' q
  have hid : ∀ (blades : ℕ) (mass L : ℚ), 1 ≤ blades →
      (blades : ℚ) * (0.33333 * ((mass - 0.1 * mass) / blades) * L ^ 2) +
          0.5 * (0.1 * mass) * (0.1 * L) ^ 2 =
        0.33333 * 0.9 * mass * L ^ 2 + 0.0005 * mass * L ^ 2 := by
    intro blades mass L hb
    have hne : (blades : ℚ) ≠ 0 := by
      have : (1 : ℚ) ≤ (blades : ℚ) := by exact_mod_cast hb
      linarith
    field_simp
    ring
  have hblades : 1 ≤ (p.designPoint m _propulsion mrpm)._blades := by
    have := estimateBlades_ge (p.designPoint m _propulsion mrpm)._Cp0
    show 1 ≤ estimateBlades (p.designPoint m _propulsion mrpm)._Cp0
    omega
  have hpx := designPoint_ixx m _propulsion mrpm p
  have hqx := designPoint_ixx m _propulsion' mrpm' q
  refine ⟨_, _, hp, hq, hblades, ?_, hid, hpx, ?_⟩
  · show (p.designPoint m _propulsion mrpm)._ixx = _
    rw [hpx]
    exact (hid _ _ _ hblades).symm
  · intro hd
    show (p.designPoint m _propulsion mrpm)._ixx = (q.designPoint m _propulsion' mrpm')._ixx
    rw [hpx, hqx, hd]

/-- C14 for the constructor's propeller at 180 hp (2 blades) and its
variable-pitch variant at 2000 hp (8 blades), both of diameter 8: the same
`_ixx`. -/
theorem set_thruster_ixx_witness :
    ∃ p' q', Propeller.construct.set_thruster coarseMath samplePropulsion 2100 = some p' ∧
      variablePropeller.set_thruster coarseMath { samplePropulsion with _power := 2000 } 1500 =
        some q' ∧
      p'._blades = 2 ∧ q'._blades = 8 ∧ p'._ixx = q'._ixx := by
  obtain ⟨p', q', hp, hq, _, _, _, _, heq⟩ :=
    set_thruster_ixx coarseMath samplePropulsion { samplePropulsion with _power := 2000 }
      2100 1500 Propeller.construct variablePropeller
  obtain ⟨gp, -, hp0⟩ := set_thruster_spec coarseMath samplePropulsion 2100 Propeller.construct
  obtain ⟨gq, -, hq0⟩ := set_thruster_spec coarseMath { samplePropulsion with _power := 2000 }
    1500 variablePropeller
  have hp' := hp
  have hq' := hq
  rw [hp0] at hp'
  rw [hq0] at hq'
  refine ⟨p', q', hp, hq, ?_, ?_, heq rfl⟩
  · rw [← Option.some.inj hp']
    show estimateBlades (Propeller.construct.designPoint coarseMath samplePropulsion 2100)._Cp0 = 2
    simp only [Propeller.designPoint, Propeller.construct, samplePropulsion]
    norm_num [estimateBlades]
  · rw [← Option.some.inj hq']
    show estimateBlades (variablePropeller.designPoint coarseMath
      { samplePropulsion with _power := 2000 } 1500)._Cp0 = 8
    simp only [Propeller.designPoint, Propeller.construct, variablePropeller, samplePropulsion]
    norm_num [estimateBlades]

/-! ## The induction loop and the radial stations -/

theorem inductionBody_continue (m : Math) (l : BladeLocals) (s : StationLocals) (V a b : ℚ)
    (sum : Int) :
    (inductionBody m l s V a b sum).2 = 0 ↔
      inductionConverged m l s V (a, b) = false ∧ sum + 1 ≤ 500 := by
  simp only [inductionBody, inductionConverged, inductionUpdate, decide_eq_false_iff_not]
  split_ifs with h1 h2 <;> simp_all

/-- What a returning induction loop has done: `k` passes, none of the earlier
ones meeting the test of line 223 or the ceiling, the last one meeting either;
its result is what the last pass computed. -/
theorem inductionLoop_trace (m : Math) (l : BladeLocals) (s : StationLocals) (V : ℚ) :
    ∀ (fuel : Nat) (a b : ℚ) (sum : Int) (r : InductionState),
      inductionLoop m l s V fuel a b sum = some r →
      ∃ k : Nat, 1 ≤ k ∧ k ≤ fuel ∧ r.sum = sum + k ∧
        (r.a, r.b) = (inductionUpdate m l s V)^[k] (a, b) ∧
        (∀ j : Nat, j + 1 < k →
          inductionConverged m l s V ((inductionUpdate m l s V)^[j] (a, b)) = false ∧
          sum + j + 1 ≤ 500) ∧
        (inductionConverged m l s V ((inductionUpdate m l s V)^[k - 1] (a, b)) = true ∨
          500 < sum + k) ∧
        r = (inductionBody m l s V ((inductionUpdate m l s V)^[k - 1] (a, b)).1
          ((inductionUpdate m l s V)^[k - 1] (a, b)).2 (sum + k - 1)).1 := by
  intro fuel
  induction fuel with
  | zero =>
    intro a b sum r h
    simp [inductionLoop] at h
  | succ fuel ih =>
    intro a b sum r h
    rw [inductionLoop] at h
    by_cases hf : (inductionBody m l s V a b sum).2 = 0
    · simp only [hf, if_true] at h
      obtain ⟨hconv, hsum⟩ := (inductionBody_continue m l s V a b sum).mp hf
      obtain ⟨k, hk1, hk2, hrs, hab, hearly, hlast, hr⟩ := ih _ _ _ r h
      have hstep : ((inductionBody m l s V a b sum).1.a, (inductionBody m l s V a b sum).1.b) =
          inductionUpdate m l s V (a, b) := rfl
      rw [hstep] at hab hearly hlast
      have hr' : r = (inductionBody m l s V
          ((inductionUpdate m l s V)^[k - 1] (inductionUpdate m l s V (a, b))).1
          ((inductionUpdate m l s V)^[k - 1] (inductionUpdate m l s V (a, b))).2
          ((inductionBody m l s V a b sum).1.sum + k - 1)).1 := hr
      rw [inductionBody_sum] at hrs hr'
      have hk : k + 1 - 1 = (k - 1) + 1 := by omega
      refine ⟨k + 1, by omega, by omega, ?_, ?_, ?_, ?_, ?_⟩
      · rw [hrs]; push_cast; omega
      · rw [Function.iterate_succ_apply]; exact hab
      · intro j hj
        cases j with
        | zero => exact ⟨hconv, by simpa using hsum⟩
        | succ j =>
          obtain ⟨h1, h2⟩ := hearly j (by omega)
          rw [Function.iterate_succ_apply]
          refine ⟨h1, ?_⟩
          rw [inductionBody_sum] at h2
          push_cast
          omega
      · rw [hk, Function.iterate_succ_apply]
        rcases hlast with h1 | h1
        · exact Or.inl h1
        · right
          rw [inductionBody_sum] at h1
          push_cast
          omega
      · rw [hk, Function.iterate_succ_apply, hr']
        have hsk : sum + 1 + (k : Int) - 1 = sum + ((k + 1 : Nat) : Int) - 1 := by
          push_cast; omega
        rw [hsk]
    · simp only [hf, if_false] at h
      have hr : r = (inductionBody m l s V a b sum).1 := (Option.some.inj h).symm
      have hnot := mt (inductionBody_continue m l s V a b sum).mpr hf
      refine ⟨1, le_refl _, by omega, ?_, ?_, ?_, ?_, ?_⟩
      · rw [hr, inductionBody_sum]; rfl
      · rw [hr]; rfl
      · intro j hj; omega
      · simp only [Nat.sub_self, Function.iterate_zero, id_eq]
        by_cases hc : inductionConverged m l s V (a, b) = true
        · exact Or.inl hc
        · right
          have hc' : inductionConverged m l s V (a, b) = false := by simpa using hc
          have : ¬ sum + 1 ≤ 500 := fun h500 => hnot ⟨hc', h500⟩
          push_cast
          omega
      · simp only [Nat.sub_self, Function.iterate_zero, id_eq, Nat.cast_one, add_sub_cancel_right]
        exact hr

/-- The station loop returns the accumulators plus, for each station of `is` in
turn, `DtDr*rstep` and `DqDr*rstep` of the induction loop run there from
`a = 0.1`, `b = 0.01`, `sum = 1`. -/
theorem stationLoop_spec (m : Math) (l : BladeLocals) (eff pitch V : ℚ) :
    ∀ (is : List Nat) (acc : ℚ × ℚ),
      ∃ rs : List InductionState,
        List.Forall₂
          (fun i r =>
            inductionLoop m l (stationLocals m l eff pitch i) V INDUCTION_FUEL 0.1 0.01 1 = some r)
          is rs ∧
        stationLoop m l eff pitch V is acc =
          some (acc.1 + (rs.map fun r => r.DtDr * l.rstep).sum,
                acc.2 + (rs.map fun r => r.DqDr * l.rstep).sum) := by
  intro is
  induction is with
  | nil =>
    intro acc
    exact ⟨[], List.Forall₂.nil, by simp [stationLoop]⟩
  | cons i is ih =>
    intro acc
    obtain ⟨r, hr⟩ := inductionLoop_some m l (stationLocals m l eff pitch i) V INDUCTION_FUEL
      0.1 0.01 1 (by unfold INDUCTION_FUEL; decide) (by unfold INDUCTION_FUEL; decide)
    obtain ⟨rs, hrs, hloop⟩ := ih (acc.1 + r.DtDr * l.rstep, acc.2 + r.DqDr * l.rstep)
    refine ⟨r :: rs, List.Forall₂.cons hr hrs, ?_⟩
    rw [stationLoop.eq_2]
    simp only [hr]
    rw [hloop]
    simp only [List.map_cons, List.sum_cons, Option.some.injEq, Prod.mk.injEq]
    constructor <;> ring

/-- The entry for `(J, pitch)`: thrust and torque are the sums of `DtDr*rstep`
and `DqDr*rstep` over the stations `0, ..., NUM_ELEMENTS - 2`. -/
theorem performanceEntry_spec (m : Math) (l : BladeLocals) (eff pitch J : ℚ) :
    ∃ rs : List InductionState,
      List.Forall₂
        (fun i r =>
          inductionLoop m l (stationLocals m l eff pitch i) (J * l.n * l.dia) INDUCTION_FUEL
            0.1 0.01 1 = some r)
        (List.range (NUM_ELEMENTS - 1)) rs ∧
      performanceEntry m l eff pitch J =
        some { J := J,
               CT := (rs.map fun r => r.DtDr * l.rstep).sum / (l.rho * l.n2 * l.D4),
               CP := 2 * m.PI * ((rs.map fun r => r.DqDr * l.rstep).sum / (l.rho * l.n2 * l.D5)) } := by
  obtain ⟨rs, hrs, hloop⟩ := stationLoop_spec m l eff pitch (J * l.n * l.dia)
    (List.range (NUM_ELEMENTS - 1)) (0.0, 0.0)
  refine ⟨rs, hrs, ?_⟩
  unfold performanceEntry
  simp only [hloop]
  norm_num

theorem stationLocals_rad (m : Math) (l : BladeLocals) (eff pitch : ℚ) (i : Nat) :
    (stationLocals m l eff pitch i).rad = l.xs + (i : ℚ) * l.rstep := rfl

theorem bladeLocals_rstep (m : Math) (p : Propeller) :
    (p.bladeLocals m).xs = 0.1 * (p._diameter / 2) ∧
    (p.bladeLocals m).xt = p._diameter / 2 ∧
    (p.bladeLocals m).rstep = ((p.bladeLocals m).xt - (p.bladeLocals m).xs) / 10 := by
  refine ⟨?_, ?_, ?_⟩
  · simp only [Propeller.bladeLocals]; norm_num
  · simp only [Propeller.bladeLocals]; norm_num
  · simp only [Propeller.bladeLocals, NUM_ELEMENTS]; norm_num

/-- C13: for every station and flight condition, and whatever the `<math.h>`
functions return, the induction loop entered with `a = 0.1`, `b = 0.01`,
`sum = 1` returns after `k` passes with `1 <= k <= 500`: no pass before the
`k`-th meets `|anew - a| < 1e-5` and `|bnew - b| < 1e-5`, and the `k`-th meets
it or is the 500th; every pass replaces `a` by `(a + tem1)/2` and `b` by
`(b + tem2)/2`, so the final `a`, `b` are the `k`-fold update of `0.1`, `0.01`;
the station loop enters it with exactly these starting values. -/
theorem inductionLoop_bounded (m : Math) (l : BladeLocals) (s : StationLocals) (V : ℚ) :
    ∃ (r : InductionState) (k : Nat),
      inductionLoop m l s V INDUCTION_FUEL 0.1 0.01 1 = some r ∧
      1 ≤ k ∧ k ≤ 500 ∧ r.sum = 1 + k ∧
      (r.a, r.b) = (inductionUpdate m l s V)^[k] (0.1, 0.01) ∧
      (∀ j : Nat, j + 1 < k →
        inductionConverged m l s V ((inductionUpdate m l s V)^[j] (0.1, 0.01)) = false) ∧
      (inductionConverged m l s V ((inductionUpdate m l s V)^[k - 1] (0.1, 0.01)) = true ∨
        k = 500) ∧
      (∀ (a b : ℚ) (sum : Int),
        (inductionUpdate m l s V (a, b)).1 =
          (a + (inductionBody m l s V a b sum).1.DtDr /
            (4 * m.PI * s.rad * l.rho * V * V * (1 + a))) / 2 ∧
        (inductionUpdate m l s V (a, b)).2 =
          (b + (inductionBody m l s V a b sum).1.DqDr /
            (4 * m.PI * s.rad * s.rad * s.rad * l.rho * V * (1 + a) * l.omega)) / 2 ∧
        (inductionBody m l s V a b sum).1.a = (inductionUpdate m l s V (a, b)).1 ∧
        (inductionBody m l s V a b sum).1.b = (inductionUpdate m l s V (a, b)).2) ∧
      (∀ (eff pitch : ℚ) (i : Nat) (is : List Nat) (acc : ℚ × ℚ),
        stationLoop m l eff pitch V (i :: is) acc =
          (inductionLoop m l (stationLocals m l eff pitch i) V INDUCTION_FUEL 0.1 0.01 1).bind
            fun r => stationLoop m l eff pitch V is
              (acc.1 + r.DtDr * l.rstep, acc.2 + r.DqDr * l.rstep)) := by
  obtain ⟨r, hr⟩ := inductionLoop_some m l s V INDUCTION_FUEL 0.1 0.01 1
    (by unfold INDUCTION_FUEL; decide) (by unfold INDUCTION_FUEL; decide)
  obtain ⟨k, hk1, -, hsum, hab, hearly, hlast, -⟩ :=
    inductionLoop_trace m l s V INDUCTION_FUEL 0.1 0.01 1 r hr
  have hk500 : k ≤ 500 := by
    by_contra hc
    have := (hearly (k - 2) (by omega)).2
    omega
  refine ⟨r, k, hr, hk1, hk500, hsum, hab, fun j hj => (hearly j hj).1, ?_, ?_, ?_⟩
  · rcases hlast with h | h
    · exact Or.inl h
    · right; omega
  · intro a b sum
    refine ⟨?_, ?_, rfl, rfl⟩
    · simp only [inductionUpdate, inductionBody]
      norm_num
      ring
    · simp only [inductionUpdate, inductionBody]
      norm_num
      ring
  · intro eff pitch i is acc
    rw [stationLoop.eq_2]
    cases inductionLoop m l (stationLocals m l eff pitch i) V INDUCTION_FUEL 0.1 0.01 1 <;> rfl

/-- C12, as the code has it: for each `(J, pitch)` pair the integrator evaluates
exactly 11 radial stations (`i = 0, ..., NUM_ELEMENTS - 2`), evenly spaced
over 10 intervals of width `rstep = (R - 0.1*R)/10` from `0.1*R` (first
station) to `R` (last station, `i = 10`), and thrust and torque are the sums
over those stations of `DtDr*rstep` and `DqDr*rstep`, from which `CT` and `CP`
are formed. -/
theorem bladeElement_stations (m : Math) (p : Propeller) (eff pitch J : ℚ) :
    (List.range (NUM_ELEMENTS - 1)).length = 11 ∧
    (p.bladeLocals m).xs = 0.1 * (p._diameter / 2) ∧
    (p.bladeLocals m).xt = p._diameter / 2 ∧
    (p.bladeLocals m).rstep = ((p.bladeLocals m).xt - (p.bladeLocals m).xs) / 10 ∧
    (stationLocals m (p.bladeLocals m) eff pitch 0).rad = 0.1 * (p._diameter / 2) ∧
    (stationLocals m (p.bladeLocals m) eff pitch 10).rad = p._diameter / 2 ∧
    (∀ i : Nat, (stationLocals m (p.bladeLocals m) eff pitch (i + 1)).rad -
      (stationLocals m (p.bladeLocals m) eff pitch i).rad = (p.bladeLocals m).rstep) ∧
    ∃ rs : List InductionState,
      rs.length = 11 ∧
      List.Forall₂
        (fun i r =>
          inductionLoop m (p.bladeLocals m) (stationLocals m (p.bladeLocals m) eff pitch i)
            (J * (p.bladeLocals m).n * (p.bladeLocals m).dia) INDUCTION_FUEL 0.1 0.01 1 = some r)
        (List.range (NUM_ELEMENTS - 1)) rs ∧
      performanceEntry m (p.bladeLocals m) eff pitch J =
        some { J := J,
               CT := (rs.map fun r => r.DtDr * (p.bladeLocals m).rstep).sum /
                 ((p.bladeLocals m).rho * (p.bladeLocals m).n2 * (p.bladeLocals m).D4),
               CP := 2 * m.PI * ((rs.map fun r => r.DqDr * (p.bladeLocals m).rstep).sum /
                 ((p.bladeLocals m).rho * (p.bladeLocals m).n2 * (p.bladeLocals m).D5)) } := by
  obtain ⟨hxs, hxt, hrstep⟩ := bladeLocals_rstep m p
  obtain ⟨rs, hrs, hentry⟩ := performanceEntry_spec m (p.bladeLocals m) eff pitch J
  refine ⟨rfl, hxs, hxt, hrstep, ?_, ?_, ?_, rs, ?_, hrs, hentry⟩
  · rw [stationLocals_rad, hxs]
    norm_num
  · rw [stationLocals_rad, hrstep, hxt]
    push_cast
    ring
  · intro i
    rw [stationLocals_rad, stationLocals_rad]
    push_cast
    ring
  · rw [← hrs.length_eq]
    rfl

/-- C12 as stated fails: on the constructor's propeller (`R = 4`) the stations
evaluated for `J = 0.1` at pitch offset 0 are the 11 radii 0.4, 0.76, ..., 4,
spaced `rstep = 0.36 = 3.6/10` apart, not 12 radii spaced `3.6/11` apart, and
the entry is formed from the 11 results of the induction loop there. -/
theorem bladeElement_stations_counterexample :
    (List.range (NUM_ELEMENTS - 1)).map
        (fun i => (stationLocals coarseMath (Propeller.construct.bladeLocals coarseMath)
          0.89 0 i).rad) =
      [0.4, 0.76, 1.12, 1.48, 1.84, 2.2, 2.56, 2.92, 3.28, 3.64, 4] ∧
    (List.range (NUM_ELEMENTS - 1)).length ≠ 12 ∧
    (Propeller.construct.bladeLocals coarseMath).rstep = 0.36 ∧
    (Propeller.construct.bladeLocals coarseMath).rstep ≠ (4 - 0.4) / 11 ∧
    ∃ rs : List InductionState,
      rs.length = 11 ∧
      performanceEntry coarseMath (Propeller.construct.bladeLocals coarseMath) 0.89 0 0.1 =
        some { J := 0.1,
               CT := (rs.map fun r =>
                   r.DtDr * (Propeller.construct.bladeLocals coarseMath).rstep).sum /
                 ((Propeller.construct.bladeLocals coarseMath).rho *
                   (Propeller.construct.bladeLocals coarseMath).n2 *
                   (Propeller.construct.bladeLocals coarseMath).D4),
               CP := 2 * coarseMath.PI * ((rs.map fun r =>
                   r.DqDr * (Propeller.construct.bladeLocals coarseMath).rstep).sum /
                 ((Propeller.construct.bladeLocals coarseMath).rho *
                   (Propeller.construct.bladeLocals coarseMath).n2 *
                   (Propeller.construct.bladeLocals coarseMath).D5)) } := by
  have hrstep : (Propeller.construct.bladeLocals coarseMath).rstep = 0.36 := by
    simp only [Propeller.bladeLocals, Propeller.construct, NUM_ELEMENTS]
    norm_num
  have hxs : (Propeller.construct.bladeLocals coarseMath).xs = 0.4 := by
    simp only [Propeller.bladeLocals, Propeller.construct]
    norm_num
  obtain ⟨rs, hrs, hentry⟩ :=
    performanceEntry_spec coarseMath (Propeller.construct.bladeLocals coarseMath) 0.89 0 0.1
  refine ⟨?_, by decide, hrstep, ?_, rs, ?_, hentry⟩
  · have hrange : List.range (NUM_ELEMENTS - 1) = [0, 1, 2, 3, 4, 5, 6, 7, 8, 9, 10] := by
      decide
    rw [hrange]
    simp only [List.map, stationLocals_rad, hrstep, hxs]
    norm_num
  · rw [hrstep]
    norm_num
  · rw [← hrs.length_eq]
    rfl
